import Mathlib

/-!
# Burnt-fee withdrawal hook of polybft (`consensus/polybft/burnt_fees_manager.go`)

A shallow embedding of `burntFeesManager`: its constructor `newBurntFeesManager`,
the trigger policy `isWithdrawalBlock` and the post-block hook `PostBlock`.

Conventions of the embedding.

* `uint64` values are natural numbers; the one addition of the source
  (`m.lastWithdrawalBlock+m.withdrawalOffset`) is reduced modulo `2 ^ 64`.
  Theorems that need an argument to be a `uint64` say so by a bound `< 2 ^ 64`.
* A Go `error` is a message string, `nil` is `none`.
* The interface values held by the manager (`txrelayer.TxRelayer`, `hclog.Logger`)
  are handles of the abstract types `R` and `L`. What a call through the relayer
  handle answers is not fixed by the manager: it is given, call by call, by an
  environment `Env`, so every relayer behaviour (stateful or not) is covered.
* Everything `PostBlock` does to the outside (debug log lines, the relayer call,
  the metrics gauge) is recorded, in program order, in a list of `Effect`s.
* Pointers are identified with the values they point to. A request whose `FullBlock`,
  `Block` or `Header` is nil, and a nil receipt returned together with a nil error, make the
  Go code panic on the dereference; they are not values of the types below.
* `key.Address()` is a function of the key: two calls on the same key give the same address.
-/

namespace polybft

/-- A byte. -/
abbrev Byte := Fin 256

/-- Modelled from the spec: the address types `types.Address` and `ethgo.Address` are declared
outside the source file; both are arrays of exactly 20 bytes, and the conversion
`ethgo.Address(...)` between them keeps the bytes. -/
abbrev Address := { bs : List Byte // bs.length = 20 }

/-- The slice `a.Bytes()` of an address. -/
def Address.Bytes (a : Address) : List Byte := a.val

/-- A Go `error` value, identified with its message. -/
abbrev Error := String

/-- Modelled from the spec: the `Signer` capability `ethgo.Key`, declared outside the source
file, "holds an address and can produce signatures". The manager only asks it for its
address; signing happens inside the relayer. -/
structure Key where
  addr : Address
deriving DecidableEq

/-- The method `key.Address()`. -/
def Key.Address (k : Key) : Address := k.addr

/-- Modelled from the spec: `ethgo.Transaction`, declared outside the source file, reduced to
the fields that `PostBlock` sets (target, sender, calldata); all others keep their zero
value. -/
structure Transaction where
  To : Option Address
  From : Address
  Input : List Byte
deriving DecidableEq

/-- Modelled from the spec: `ethgo.Receipt`, declared outside the source file, reduced to the
`uint64` status that `PostBlock` reads. -/
structure Receipt where
  Status : Nat
deriving DecidableEq

/-- Modelled from the spec: the constant `types.ReceiptFailed`, the receipt status that
"indicates failure", is declared outside the source file (in package `types`, as the first
`iota` value of `ReceiptStatus`); here after the conversion `uint64(...)`. The general theorems
use it only through this name. -/
def ReceiptFailed : Nat := 0

/-- Modelled from the spec: the constant `types.ReceiptSuccess`, the status of a non-reverted
receipt, declared outside the source file as the second `iota` value of `ReceiptStatus`. It is
used in concrete environments only. -/
def ReceiptSuccess : Nat := 1

/-- Modelled from the spec: `types.Header`, declared outside the source file, reduced to the
fields `Number` and `Miner` that `PostBlock` reads. -/
structure Header where
  Number : Nat
  Miner : List Byte
deriving DecidableEq

/-- Modelled from the spec: `types.Block`, declared outside the source file, reduced to its
header. -/
structure Block where
  Header : Header
deriving DecidableEq

/-- Modelled from the spec: the method `Block.Number()` of package `types`, declared outside
the source file: "the current block number", that is the number of the block's header. -/
def Block.Number (b : Block) : Nat := b.Header.Number

/-- Modelled from the spec: `types.FullBlock`, declared outside the source file, reduced to
its block. -/
structure FullBlock where
  Block : Block
deriving DecidableEq

/-- Modelled from the spec: `PostBlockRequest`, the request handed to every post-block hook,
declared in another file of the package; reduced to the fields that `PostBlock` reads. -/
structure PostBlockRequest where
  FullBlock : FullBlock
  IsEpochEndingBlock : Bool
deriving DecidableEq

/-- The constant `defaultBurntFeesWithdrawalOffset = uint64(900)`. -/
def defaultBurntFeesWithdrawalOffset : Nat := 900

/-- The struct `burntFeesManager`; `R` and `L` are the types of the relayer and logger handles. -/
structure burntFeesManager (R L : Type) where
  key : Key
  txRelayer : R
  burntFeesManagerAddr : Address
  withdrawalOffset : Nat
  lastWithdrawalBlock : Nat
  logger : L
deriving DecidableEq

/-- Modelled from the spec: the two collaborators of `PostBlock` that are declared outside the
source file, given by what they answer during one call: the result of
`contractsapi.EIP1559Burn.Abi.GetMethod("withdraw").Encode([]interface{}{})` (the encoded
calldata or an error) and the result of the `TransactionRelayer` capability
`SendTransaction(tx, signer) -> (Receipt, error)` on a relayer handle. -/
structure Env (R : Type) where
  encodeWithdraw : Except Error (List Byte)
  SendTransaction : R → Transaction → Key → Except Error Receipt

/-- An externally visible action of `PostBlock`. The gauge value is recorded before its
conversion to `float32`. -/
inductive Effect (R : Type) where
  | debug (msg : String) (field : String) (value : Nat)
  | send (relayer : R) (txn : Transaction) (signer : Key)
  | setGauge (name : List String) (value : Nat)
deriving DecidableEq

/-- The outcome of one call of `PostBlock`: the manager afterwards, the returned error
(`none` for `nil`) and the actions performed, in order. -/
structure PostBlockResult (R L : Type) where
  manager : burntFeesManager R L
  err : Option Error
  effects : List (Effect R)

variable {R L : Type}

/-- The constructor `newBurntFeesManager`; `lastWithdrawalBlock` is not mentioned in the
composite literal and so has the zero value. -/
def newBurntFeesManager (key : Key) (txRelayer : R) (withdrawalOffset : Nat)
    (burntFeesManagerAddr : Address) (logger : L) : burntFeesManager R L :=
  { key := key
    txRelayer := txRelayer
    burntFeesManagerAddr := burntFeesManagerAddr
    withdrawalOffset := withdrawalOffset
    lastWithdrawalBlock := 0
    logger := logger }

/-- The method `isWithdrawalBlock`: true on an epoch-ending block and on the block whose number
is the `uint64` sum of the last withdrawal block and the offset. -/
def burntFeesManager.isWithdrawalBlock (m : burntFeesManager R L) (blockNumber : Nat)
    (isEpochEndingBlock : Bool) : Bool :=
  isEpochEndingBlock ||
    blockNumber == (m.lastWithdrawalBlock + m.withdrawalOffset) % 2 ^ 64

/-- The Go library function `bytes.Equal`: same length and same bytes (a nil slice equals an
empty one). -/
def bytesEqual (a b : List Byte) : Bool := a == b

/-- The error built by `fmt.Errorf` when the receipt reports a failed transaction. -/
def withdrawalFailedError (blockNumber : Nat) : Error :=
  "burnt fees withdrawal transaction failed for block " ++ toString blockNumber

/-- The method `PostBlock`. -/
def burntFeesManager.PostBlock (m : burntFeesManager R L) (env : Env R)
    (req : PostBlockRequest) : PostBlockResult R L :=
  let latestHeader := req.FullBlock.Block.Header
  -- Check if withdrawal is needed by the current miner
  if !m.isWithdrawalBlock latestHeader.Number req.IsEpochEndingBlock ||
      !bytesEqual m.key.Address.Bytes latestHeader.Miner then
    { manager := m, err := none, effects := [] }
  else
    let invoked : Effect R :=
      .debug "burnt fees withdrawal invoked..." "withdrawal block" latestHeader.Number
    -- Encode transaction input
    match env.encodeWithdraw with
    | .error err => { manager := m, err := some err, effects := [invoked] }
    | .ok input =>
      let txn : Transaction :=
        { To := some m.burntFeesManagerAddr, From := m.key.Address, Input := input }
      -- Send withdrawal transaction
      let sent : Effect R := .send m.txRelayer txn m.key
      match env.SendTransaction m.txRelayer txn m.key with
      | .error err => { manager := m, err := some err, effects := [invoked, sent] }
      | .ok receipt =>
        if receipt.Status == ReceiptFailed then
          { manager := m
            err := some (withdrawalFailedError latestHeader.Number)
            effects := [invoked, sent] }
        else
          -- Update last withdrawal block
          { manager := { m with lastWithdrawalBlock := req.FullBlock.Block.Number }
            err := none
            effects :=
              [invoked, sent,
                .setGauge ["bridge", "checkpoint_block_number"] latestHeader.Number,
                .debug "successfully sent burnt fees withdrawal tx" "block number"
                  latestHeader.Number] }

/-- The transactions handed to a relayer among a list of actions, with handle and signer. -/
def sentTransactions : List (Effect R) → List (R × Transaction × Key)
  | [] => []
  | .send r txn k :: rest => (r, txn, k) :: sentTransactions rest
  | _ :: rest => sentTransactions rest

/-- The hook invoked on a sequence of requests, one environment per call: the list of the
outcomes of the calls, each call starting from the manager the previous one left. -/
def postBlocks (m : burntFeesManager R L) :
    List (Env R × PostBlockRequest) → List (PostBlockResult R L)
  | [] => []
  | (env, req) :: rest =>
    let r := m.PostBlock env req
    r :: postBlocks r.manager rest

/-- The manager after a sequence of calls of the hook. -/
def managerAfter (m : burntFeesManager R L) :
    List (Env R × PostBlockRequest) → burntFeesManager R L
  | [] => m
  | (env, req) :: rest => managerAfter (m.PostBlock env req).manager rest

/-! ## Concrete values used to evaluate the definitions -/

/-- The address made of twenty bytes equal to `b`. -/
def constAddress (b : Byte) : Address := ⟨List.replicate 20 b, by simp⟩

/-- A node key with address `0x0101...01`. -/
def nodeKey : Key := { addr := constAddress 1 }

/-- The contract address `0x0202...02`. -/
def burnContract : Address := constAddress 2

/-- A manager with trivial handles, for the given watermark and offset. -/
def managerAt (last offset : Nat) : burntFeesManager Unit Unit :=
  { key := nodeKey, txRelayer := (), burntFeesManagerAddr := burnContract,
    withdrawalOffset := offset, lastWithdrawalBlock := last, logger := () }

/-- A request for block `number`, mined by the account with address bytes `miner`. -/
def requestAt (number : Nat) (miner : List Byte) (epochEnding : Bool) : PostBlockRequest :=
  { FullBlock := { Block := { Header := { Number := number, Miner := miner } } },
    IsEpochEndingBlock := epochEnding }

/-- The encoded input used in the concrete environments (the selector of `withdraw()`). -/
def withdrawInput : List Byte := [0x3c, 0xcf, 0xd6, 0x0b]

/-- An environment in which encoding succeeds and every transaction gets a receipt with the
given status. -/
def envStatus (status : Nat) : Env Unit :=
  { encodeWithdraw := .ok withdrawInput
    SendTransaction := fun _ _ _ => .ok { Status := status } }

/-- An environment in which encoding succeeds and the relayer fails with the given error. -/
def envSendError (e : Error) : Env Unit :=
  { encodeWithdraw := .ok withdrawInput
    SendTransaction := fun _ _ _ => .error e }

/-- An environment in which encoding fails with the given error. -/
def envEncodeError (e : Error) : Env Unit :=
  { encodeWithdraw := .error e
    SendTransaction := fun _ _ _ => .ok { Status := ReceiptSuccess } }

/-- The header `Miner` bytes of a block proposed by the node. -/
def nodeMiner : List Byte := nodeKey.Address.Bytes

/-- The header `Miner` bytes of a block proposed by another validator, `0x0303...03`. -/
def otherMiner : List Byte := (constAddress 3).Bytes

/-- The withdrawal transaction built by a manager of `managerAt`. -/
def nodeWithdrawTxn : Transaction :=
  { To := some burnContract, From := nodeKey.Address, Input := withdrawInput }

/-- The call made for block `b` in the cadence scenario with offset 900: the block is not
epoch-ending, it is mined by the node exactly when 900 divides `b`, and the relayer answers
with a successful receipt. -/
def cadenceStep (b : Nat) : Env Unit × PostBlockRequest :=
  (envStatus ReceiptSuccess, requestAt b (if 900 ∣ b then nodeMiner else otherMiner) false)

/-- The assumptions of the cadence scenario on the call made for block `b`, for a node with
key `key` and offset `k`: the request carries number `b` and is not epoch-ending, the node is
the miner when `k` divides `b`, the encoding succeeds and the relayer answers every
transaction with a receipt that is not failed. -/
def CadenceCall (key : Key) (k b : Nat) (call : Env R × PostBlockRequest) : Prop :=
  call.2.FullBlock.Block.Header.Number = b ∧
    call.2.IsEpochEndingBlock = false ∧
    (k ∣ b → call.2.FullBlock.Block.Header.Miner = key.Address.Bytes) ∧
    (∃ input, call.1.encodeWithdraw = .ok input) ∧
    ∀ r txn signer, ∃ receipt,
      call.1.SendTransaction r txn signer = .ok receipt ∧ receipt.Status ≠ ReceiptFailed

/-! ## Runs of the hook: completed withdrawals and counts -/

/-- Whether the call `m.PostBlock env req` completed a withdrawal with a non-failed receipt:
a transaction was handed to the relayer and the relayer answered it with a receipt whose
status is not `ReceiptFailed`. -/
def completedWithdrawal (m : burntFeesManager R L) (env : Env R) (req : PostBlockRequest) :
    Bool :=
  match sentTransactions (m.PostBlock env req).effects with
  | [] => false
  | (r, txn, k) :: _ =>
    match env.SendTransaction r txn k with
    | .ok receipt => receipt.Status != ReceiptFailed
    | .error _ => false

/-- The block number of the most recent call, in a sequence of calls starting from `m`, that
completed a withdrawal with a non-failed receipt; `none` when no call did. -/
def lastCompletedBlock (m : burntFeesManager R L) :
    List (Env R × PostBlockRequest) → Option Nat
  | [] => none
  | (env, req) :: rest =>
    match lastCompletedBlock (m.PostBlock env req).manager rest with
    | some b => some b
    | none =>
      if completedWithdrawal m env req then some req.FullBlock.Block.Header.Number else none

/-- The number of transactions handed to the relayer in a list of outcomes. -/
def sentCount (results : List (PostBlockResult R L)) : Nat :=
  (results.map fun res => (sentTransactions res.effects).length).sum

/-- The blocks 1 to 4, mined by the node and not epoch-ending, the relayer always answering
with a successful receipt. -/
def epochMiddle : List (Env Unit × PostBlockRequest) :=
  [(envStatus ReceiptSuccess, requestAt 1 nodeMiner false),
    (envStatus ReceiptSuccess, requestAt 2 nodeMiner false),
    (envStatus ReceiptSuccess, requestAt 3 nodeMiner false),
    (envStatus ReceiptSuccess, requestAt 4 nodeMiner false)]

/-- The epoch-ending block 5, mined by the node, the relayer answering with a successful
receipt. -/
def epochEnd : Env Unit × PostBlockRequest :=
  (envStatus ReceiptSuccess, requestAt 5 nodeMiner true)

/-- An epoch of five blocks, 1 to 5, of which only block 5 is epoch-ending; the node mines
every block and the relayer always answers with a successful receipt. -/
def epochRun : List (Env Unit × PostBlockRequest) := epochMiddle ++ [epochEnd]

/-- The blocks 1001, 1002 and 1003, mined by the node and not epoch-ending. -/
def lateBlocks : List (Env Unit × PostBlockRequest) :=
  [(envStatus ReceiptSuccess, requestAt 1001 nodeMiner false),
    (envStatus ReceiptSuccess, requestAt 1002 nodeMiner false),
    (envStatus ReceiptSuccess, requestAt 1003 nodeMiner false)]

/-- The node's address left-padded with zero bytes to 32 bytes. -/
def paddedMiner : List Byte := List.replicate 12 0 ++ nodeMiner

/-! ## The checkpoint manager (section 4.4 of the specification) -/

/-- Modelled from the spec: the checkpoint manager, whose code is not among the source files
(only its end-to-end test `TestE2E_CheckpointSubmission` is). Its state is the "last
checkpointed epoch" counter. Epochs have a fixed size (5 blocks in the test) and epoch `N` ends
at block `N * epochSize`. The specification leaves open whether, after a success, a remaining
backlog is attempted "in the same post-block cycle or the next available block"; the field
`drainInCycle` chooses the first. -/
structure CheckpointManager where
  epochSize : Nat
  lastCheckpointedEpoch : Nat
  drainInCycle : Bool
deriving DecidableEq

/-- Modelled from the spec: the block number of the last checkpoint, as the root chain reports
it: the epoch-ending block of the last checkpointed epoch. -/
def CheckpointManager.lastCheckpointBlock (c : CheckpointManager) : Nat :=
  c.lastCheckpointedEpoch * c.epochSize

/-- Modelled from the spec: the submissions of one post-block cycle of the checkpoint manager,
whose code is not among the source files. While a backlog exists it "builds a checkpoint
covering the oldest unsubmitted epoch" and calls the relayer; "on success, advances the last
checkpointed epoch counter by exactly one and re-evaluates whether a backlog remains"; a failed
submission is "not retried in a tight loop within the same block" and "the watermark is not
advanced". Here `completed` counts the epochs that have ended, `channelUp` says whether the
root-chain submission channel is available, the first argument bounds the number of attempts of
the cycle and the second is the counter. The result is the new counter and the epochs
submitted, in order of submission. -/
def submitBacklog (completed : Nat) (channelUp : Bool) : Nat → Nat → Nat × List Nat
  | 0, last => (last, [])
  | budget + 1, last =>
    if last < completed && channelUp then
      ((submitBacklog completed channelUp budget (last + 1)).1,
        (last + 1) :: (submitBacklog completed channelUp budget (last + 1)).2)
    else (last, [])

/-- Modelled from the spec: the post-block hook of the checkpoint manager, whose code is not
among the source files. It acts "on the epoch-ending block (or, for catch-up, on any later block
while a backlog of un-checkpointed epochs exists)": one attempt, or as many as there are
backlogged epochs when `drainInCycle` is set. The result is the manager afterwards and the
epochs submitted during the cycle. -/
def CheckpointManager.PostBlock (c : CheckpointManager) (block : Nat) (channelUp : Bool) :
    CheckpointManager × List Nat :=
  let completed := block / c.epochSize
  let budget := if c.drainInCycle then completed - c.lastCheckpointedEpoch else 1
  ({ c with
      lastCheckpointedEpoch := (submitBacklog completed channelUp budget c.lastCheckpointedEpoch).1 },
    (submitBacklog completed channelUp budget c.lastCheckpointedEpoch).2)

/-- Modelled from the spec: the checkpoint manager invoked "once per finalized block" on a
sequence of blocks, each given with the availability of the root-chain channel at that block.
The result is the manager at the end and all epochs submitted, in order of submission. -/
def runCheckpoints (c : CheckpointManager) : List (Nat × Bool) → CheckpointManager × List Nat
  | [] => (c, [])
  | (block, channelUp) :: rest =>
    ((runCheckpoints (c.PostBlock block channelUp).1 rest).1,
      (c.PostBlock block channelUp).2 ++ (runCheckpoints (c.PostBlock block channelUp).1 rest).2)

/-- The blocks `s + 1, ..., s + K` with the root-chain channel unavailable. -/
def outageBlocks (s K : Nat) : List (Nat × Bool) :=
  (List.range' (s + 1) K).map fun b => (b, false)

/-- The blocks `s + 1, ..., s + n` with the root-chain channel available. -/
def recoveryBlocks (s n : Nat) : List (Nat × Bool) :=
  (List.range' (s + 1) n).map fun b => (b, true)

/-- The values of `lastWithdrawalBlock` after each call of a sequence of calls starting from
`m`, in order. -/
def watermarks (m : burntFeesManager R L) (calls : List (Env R × PostBlockRequest)) : List Nat :=
  (postBlocks m calls).map fun res => res.manager.lastWithdrawalBlock

/-- The block numbers of the requests of a sequence of calls, in order. -/
def blockNumbers (calls : List (Env R × PostBlockRequest)) : List Nat :=
  calls.map fun call => call.2.FullBlock.Block.Header.Number

/-! ## The trigger policy -/

/-- C1 (as amended): when `lastWithdrawalBlock + withdrawalOffset` does not overflow `uint64`,
`isWithdrawalBlock` returns true if and only if the block is epoch-ending or its number
equals the exact sum `lastWithdrawalBlock + withdrawalOffset`. -/
theorem isWithdrawalBlock_iff_of_no_overflow (m : burntFeesManager R L) (blockNumber : Nat)
    (isEpochEndingBlock : Bool)
    (h : m.lastWithdrawalBlock + m.withdrawalOffset < 2 ^ 64) :
    m.isWithdrawalBlock blockNumber isEpochEndingBlock = true ↔
      (isEpochEndingBlock = true ∨
        blockNumber = m.lastWithdrawalBlock + m.withdrawalOffset) := by
  unfold burntFeesManager.isWithdrawalBlock
  rw [Nat.mod_eq_of_lt h]
  simp

/-- Witness for C1 (as amended): watermark 100 and offset 900 trigger on block 1000. -/
theorem isWithdrawalBlock_iff_of_no_overflow_witness :
    (managerAt 100 900).lastWithdrawalBlock + (managerAt 100 900).withdrawalOffset < 2 ^ 64 ∧
      ((managerAt 100 900).isWithdrawalBlock 1000 false = true ↔
        (false = true ∨
          1000 = (managerAt 100 900).lastWithdrawalBlock +
            (managerAt 100 900).withdrawalOffset)) :=
  ⟨by decide, isWithdrawalBlock_iff_of_no_overflow (managerAt 100 900) 1000 false (by decide)⟩

/-- Counterexample to C1 as stated: all arguments are `uint64` values, the watermark is
`2 ^ 64 - 1` and the offset 1; block 0 is not epoch-ending and differs from the exact sum
`2 ^ 64`, yet `isWithdrawalBlock` returns true. -/
theorem isWithdrawalBlock_exact_sum_counterexample :
    (0 < 2 ^ 64 ∧ 2 ^ 64 - 1 < 2 ^ 64 ∧ 1 < 2 ^ 64) ∧
      (managerAt (2 ^ 64 - 1) 1).isWithdrawalBlock 0 false = true ∧
      ¬ (false = true ∨
          0 = (managerAt (2 ^ 64 - 1) 1).lastWithdrawalBlock +
            (managerAt (2 ^ 64 - 1) 1).withdrawalOffset) := by
  refine ⟨by decide, by decide, ?_⟩
  simp [managerAt]

/-! ## Shape of one call of the hook -/

/-- The request does not pass the gate of `PostBlock` (trigger policy and proposer check):
the hook returns `nil` at once, with no action and the manager untouched. -/
theorem PostBlock_of_gate_closed (m : burntFeesManager R L) (env : Env R)
    (req : PostBlockRequest)
    (h : m.isWithdrawalBlock req.FullBlock.Block.Header.Number req.IsEpochEndingBlock = false ∨
      req.FullBlock.Block.Header.Miner ≠ m.key.Address.Bytes) :
    m.PostBlock env req = { manager := m, err := none, effects := [] } := by
  unfold burntFeesManager.PostBlock
  have hg : (!m.isWithdrawalBlock req.FullBlock.Block.Header.Number req.IsEpochEndingBlock ||
      !bytesEqual m.key.Address.Bytes req.FullBlock.Block.Header.Miner) = true := by
    rcases h with h | h
    · simp [h]
    · have : bytesEqual m.key.Address.Bytes req.FullBlock.Block.Header.Miner = false := by
        unfold bytesEqual
        exact beq_eq_false_iff_ne.mpr (fun hc => h hc.symm)
      simp [this]
  simp only [hg, if_true]

/-- A relayer call recorded by `PostBlock` implies that the request passed the gate, that the
encoding succeeded, and fixes the call: handle, transaction and signer. -/
theorem PostBlock_send_mem (m : burntFeesManager R L) (env : Env R) (req : PostBlockRequest)
    (r : R) (txn : Transaction) (k : Key)
    (h : Effect.send r txn k ∈ (m.PostBlock env req).effects) :
    m.isWithdrawalBlock req.FullBlock.Block.Header.Number req.IsEpochEndingBlock = true ∧
      req.FullBlock.Block.Header.Miner = m.key.Address.Bytes ∧
      env.encodeWithdraw = .ok txn.Input ∧
      r = m.txRelayer ∧ k = m.key ∧
      txn = { To := some m.burntFeesManagerAddr, From := m.key.Address, Input := txn.Input } := by
  by_cases hg : m.isWithdrawalBlock req.FullBlock.Block.Header.Number req.IsEpochEndingBlock
      = false ∨ req.FullBlock.Block.Header.Miner ≠ m.key.Address.Bytes
  · rw [PostBlock_of_gate_closed m env req hg] at h
    simp at h
  · have hg1 : m.isWithdrawalBlock req.FullBlock.Block.Header.Number req.IsEpochEndingBlock
        = true := by
      by_contra hc
      exact hg (Or.inl (by simpa using hc))
    have hg2 : req.FullBlock.Block.Header.Miner = m.key.Address.Bytes := by
      by_contra hc
      exact hg (Or.inr hc)
    refine ⟨hg1, hg2, ?_⟩
    unfold burntFeesManager.PostBlock at h
    have hb : bytesEqual m.key.Address.Bytes req.FullBlock.Block.Header.Miner = true := by
      unfold bytesEqual
      simp [hg2]
    simp only [hg1, hb, Bool.not_true, Bool.or_self, Bool.false_eq_true, if_false] at h
    split at h
    · simp at h
    · rename_i input hinput
      split at h
      · simp at h
        obtain ⟨rfl, rfl, rfl⟩ := h
        simp [hinput]
      · split at h
        · simp at h
          obtain ⟨rfl, rfl, rfl⟩ := h
          simp [hinput]
        · simp at h
          obtain ⟨rfl, rfl, rfl⟩ := h
          simp [hinput]

/-- The outcome of `PostBlock` once the request passed the gate and the encoding succeeded:
it is decided by the answer of the relayer. -/
theorem PostBlock_of_gate_open (m : burntFeesManager R L) (env : Env R)
    (req : PostBlockRequest) (input : List Byte)
    (htrigger :
      m.isWithdrawalBlock req.FullBlock.Block.Header.Number req.IsEpochEndingBlock = true)
    (hminer : req.FullBlock.Block.Header.Miner = m.key.Address.Bytes)
    (hencode : env.encodeWithdraw = .ok input) :
    m.PostBlock env req =
      match env.SendTransaction m.txRelayer
          { To := some m.burntFeesManagerAddr, From := m.key.Address, Input := input }
          m.key with
      | .error err =>
        { manager := m, err := some err
          effects :=
            [.debug "burnt fees withdrawal invoked..." "withdrawal block"
                req.FullBlock.Block.Header.Number,
              .send m.txRelayer
                { To := some m.burntFeesManagerAddr, From := m.key.Address, Input := input }
                m.key] }
      | .ok receipt =>
        if receipt.Status = ReceiptFailed then
          { manager := m
            err := some (withdrawalFailedError req.FullBlock.Block.Header.Number)
            effects :=
              [.debug "burnt fees withdrawal invoked..." "withdrawal block"
                  req.FullBlock.Block.Header.Number,
                .send m.txRelayer
                  { To := some m.burntFeesManagerAddr, From := m.key.Address, Input := input }
                  m.key] }
        else
          { manager := { m with lastWithdrawalBlock := req.FullBlock.Block.Header.Number }
            err := none
            effects :=
              [.debug "burnt fees withdrawal invoked..." "withdrawal block"
                  req.FullBlock.Block.Header.Number,
                .send m.txRelayer
                  { To := some m.burntFeesManagerAddr, From := m.key.Address, Input := input }
                  m.key,
                .setGauge ["bridge", "checkpoint_block_number"]
                  req.FullBlock.Block.Header.Number,
                .debug "successfully sent burnt fees withdrawal tx" "block number"
                  req.FullBlock.Block.Header.Number] } := by
  unfold burntFeesManager.PostBlock
  have hb : bytesEqual m.key.Address.Bytes req.FullBlock.Block.Header.Miner = true := by
    unfold bytesEqual
    simp [hminer]
  simp only [htrigger, hb, Bool.not_true, Bool.or_self, Bool.false_eq_true, if_false, hencode,
    Block.Number, beq_iff_eq]

/-- The outcome of `PostBlock` once the request passed the gate and the encoding failed. -/
theorem PostBlock_of_encode_error (m : burntFeesManager R L) (env : Env R)
    (req : PostBlockRequest) (e : Error)
    (htrigger :
      m.isWithdrawalBlock req.FullBlock.Block.Header.Number req.IsEpochEndingBlock = true)
    (hminer : req.FullBlock.Block.Header.Miner = m.key.Address.Bytes)
    (hencode : env.encodeWithdraw = .error e) :
    m.PostBlock env req =
      { manager := m, err := some e
        effects :=
          [.debug "burnt fees withdrawal invoked..." "withdrawal block"
            req.FullBlock.Block.Header.Number] } := by
  unfold burntFeesManager.PostBlock
  have hb : bytesEqual m.key.Address.Bytes req.FullBlock.Block.Header.Miner = true := by
    unfold bytesEqual
    simp [hminer]
  simp only [htrigger, hb, Bool.not_true, Bool.or_self, Bool.false_eq_true, if_false, hencode]

/-- The three possible outcomes of `PostBlock`: nothing happened; an error was returned and the
manager is untouched; or `nil` was returned and the watermark is the header number. -/
theorem PostBlock_cases (m : burntFeesManager R L) (env : Env R) (req : PostBlockRequest) :
    m.PostBlock env req = { manager := m, err := none, effects := [] } ∨
      (∃ e effs, m.PostBlock env req = { manager := m, err := some e, effects := effs }) ∨
      (∃ effs, m.PostBlock env req =
        { manager := { m with lastWithdrawalBlock := req.FullBlock.Block.Header.Number }
          err := none, effects := effs }) := by
  by_cases htrigger :
      m.isWithdrawalBlock req.FullBlock.Block.Header.Number req.IsEpochEndingBlock = true
  · by_cases hminer : req.FullBlock.Block.Header.Miner = m.key.Address.Bytes
    · cases hencode : env.encodeWithdraw with
      | error e =>
        exact Or.inr (Or.inl ⟨e, _, PostBlock_of_encode_error m env req e htrigger hminer hencode⟩)
      | ok input =>
        rw [PostBlock_of_gate_open m env req input htrigger hminer hencode]
        cases env.SendTransaction m.txRelayer
            { To := some m.burntFeesManagerAddr, From := m.key.Address, Input := input }
            m.key with
        | error e => exact Or.inr (Or.inl ⟨e, _, rfl⟩)
        | ok receipt =>
          by_cases hstatus : receipt.Status = ReceiptFailed
          · exact Or.inr (Or.inl ⟨_, _, by simp only [hstatus, if_true]; rfl⟩)
          · exact Or.inr (Or.inr ⟨_, by simp only [hstatus, if_false]; rfl⟩)
    · exact Or.inl (PostBlock_of_gate_closed m env req (Or.inr hminer))
  · exact Or.inl (PostBlock_of_gate_closed m env req (Or.inl (by simpa using htrigger)))

/-! ## Runs of calls with a fixed offset -/

/-- Unfolding of `postBlocks` on a non-empty sequence of calls. -/
theorem postBlocks_cons (m : burntFeesManager R L) (call : Env R × PostBlockRequest)
    (rest : List (Env R × PostBlockRequest)) :
    postBlocks m (call :: rest)
      = m.PostBlock call.1 call.2 :: postBlocks (m.PostBlock call.1 call.2).manager rest := by
  cases call
  rfl

/-- Unfolding of `managerAfter` on a non-empty sequence of calls. -/
theorem managerAfter_cons (m : burntFeesManager R L) (call : Env R × PostBlockRequest)
    (rest : List (Env R × PostBlockRequest)) :
    managerAfter m (call :: rest) = managerAfter (m.PostBlock call.1 call.2).manager rest := by
  cases call
  rfl

/-- With watermark `k * (j / k)` and offset `k`, block `j + 1` equals the `uint64` sum of
watermark and offset exactly when `k` divides `j + 1`. -/
theorem trigger_iff_dvd (k j : Nat) (hk : 0 < k) (hk64 : k < 2 ^ 64) (hj : j + 1 < 2 ^ 64) :
    j + 1 = (k * (j / k) + k) % 2 ^ 64 ↔ k ∣ j + 1 := by
  have hle : k * (j / k) ≤ j := Nat.mul_div_le j k
  have hlt : j < k * (j / k) + k := by
    have := Nat.lt_mul_div_succ j hk
    rwa [Nat.mul_add, Nat.mul_one] at this
  constructor
  · intro h
    have h2 : j + 1 = k * (j / k) + k := by omega
    exact ⟨j / k + 1, by rw [h2, Nat.mul_add, Nat.mul_one]⟩
  · intro h
    have hdiv : (j + 1) / k = j / k + 1 := by
      rw [Nat.succ_div, if_pos h]
    have hmul : k * ((j + 1) / k) = j + 1 := Nat.mul_div_cancel' h
    rw [hdiv, Nat.mul_add, Nat.mul_one] at hmul
    omega

/-- The largest multiple of `k` up to `j + 1`, from the largest one up to `j`. -/
theorem multiple_step (k j : Nat) :
    k * ((j + 1) / k) = if k ∣ j + 1 then j + 1 else k * (j / k) := by
  by_cases h : k ∣ j + 1
  · rw [if_pos h, Nat.mul_div_cancel' h]
  · rw [if_neg h, Nat.succ_div, if_neg h, Nat.add_zero]

/-- One call of the cadence scenario: from watermark `k * (j / k)`, the call for block `j + 1`
reaches the relayer exactly when `k` divides `j + 1`, and leaves the watermark at
`k * ((j + 1) / k)` and everything else untouched. -/
theorem PostBlock_cadence_step (m : burntFeesManager R L) (call : Env R × PostBlockRequest)
    (k j : Nat) (hk : 0 < k) (hk64 : k < 2 ^ 64) (hj : j + 1 < 2 ^ 64)
    (hoffset : m.withdrawalOffset = k) (hlast : m.lastWithdrawalBlock = k * (j / k))
    (hcall : CadenceCall m.key k (j + 1) call) :
    ((∃ r txn signer, Effect.send r txn signer ∈ (m.PostBlock call.1 call.2).effects)
        ↔ k ∣ j + 1) ∧
      (m.PostBlock call.1 call.2).manager
        = { m with lastWithdrawalBlock := k * ((j + 1) / k) } := by
  obtain ⟨hnumber, hepoch, hminer, ⟨input, hencode⟩, hrelayer⟩ := hcall
  have htrigger : m.isWithdrawalBlock call.2.FullBlock.Block.Header.Number
      call.2.IsEpochEndingBlock = true ↔ k ∣ j + 1 := by
    unfold burntFeesManager.isWithdrawalBlock
    rw [hepoch, hnumber, hlast, hoffset]
    simp only [Bool.false_or, beq_iff_eq]
    exact trigger_iff_dvd k j hk hk64 hj
  rw [multiple_step]
  by_cases hdvd : k ∣ j + 1
  · obtain ⟨receipt, hanswer, hstatus⟩ := hrelayer m.txRelayer
      { To := some m.burntFeesManagerAddr, From := m.key.Address, Input := input } m.key
    rw [PostBlock_of_gate_open m call.1 call.2 input (htrigger.mpr hdvd) (hminer hdvd) hencode,
      hanswer]
    simp only [hstatus, if_false, hdvd, if_true, hnumber, iff_true, and_true]
    exact ⟨_, _, _, List.mem_cons_of_mem _ (List.mem_cons_self _ _)⟩
  · have hclosed : m.isWithdrawalBlock call.2.FullBlock.Block.Header.Number
        call.2.IsEpochEndingBlock = false := by
      cases h : m.isWithdrawalBlock call.2.FullBlock.Block.Header.Number
        call.2.IsEpochEndingBlock
      · rfl
      · exact absurd (htrigger.mp h) hdvd
    rw [PostBlock_of_gate_closed m call.1 call.2 (Or.inl hclosed)]
    simp only [hdvd, if_false, iff_false, List.not_mem_nil, exists_false, not_false_eq_true,
      true_and]
    rw [← hlast]

/-- The cadence scenario from any point of the run: a manager with offset `k` and watermark
`k * (j / k)` processes the blocks `j + 1, ..., j + len`. -/
theorem postBlocks_cadence (key : Key) (k : Nat) (calls : Nat → Env R × PostBlockRequest)
    (hk : 0 < k) (hk64 : k < 2 ^ 64) :
    ∀ (len j : Nat) (m : burntFeesManager R L), m.key = key → m.withdrawalOffset = k →
      m.lastWithdrawalBlock = k * (j / k) → j + len < 2 ^ 64 →
      (∀ b, j < b → b ≤ j + len → CadenceCall key k b (calls b)) →
      (∀ i, i < len → ∃ res,
          (postBlocks m ((List.range' (j + 1) len).map calls))[i]? = some res ∧
            ((∃ r txn signer, Effect.send r txn signer ∈ res.effects) ↔ k ∣ j + 1 + i)) ∧
        (managerAfter m ((List.range' (j + 1) len).map calls)).lastWithdrawalBlock
          = k * ((j + len) / k) := by
  intro len
  induction len with
  | zero =>
    intro j m _ _ hlast _ _
    refine ⟨fun i hi => absurd hi (Nat.not_lt_zero i), ?_⟩
    simpa [managerAfter] using hlast
  | succ len ih =>
    intro j m hkey hoffset hlast hbound hcalls
    have hcall : CadenceCall m.key k (j + 1) (calls (j + 1)) := by
      rw [hkey]
      exact hcalls (j + 1) (by omega) (by omega)
    obtain ⟨hsend, hmanager⟩ :=
      PostBlock_cadence_step m (calls (j + 1)) k j hk hk64 (by omega) hoffset hlast hcall
    obtain ⟨hrest, hfinal⟩ := ih (j + 1) (m.PostBlock (calls (j + 1)).1 (calls (j + 1)).2).manager
      (by rw [hmanager]; exact hkey) (by rw [hmanager]; exact hoffset) (by rw [hmanager])
      (by omega) (fun b hb1 hb2 => hcalls b (by omega) (by omega))
    have hlist : (List.range' (j + 1) (len + 1)).map calls
        = calls (j + 1) :: (List.range' (j + 1 + 1) len).map calls := by
      rw [List.range'_succ, List.map_cons]
    rw [hlist, postBlocks_cons, managerAfter_cons]
    constructor
    · intro i hi
      cases i with
      | zero =>
        exact ⟨m.PostBlock (calls (j + 1)).1 (calls (j + 1)).2, List.getElem?_cons_zero,
          by simpa using hsend⟩
      | succ i =>
        obtain ⟨res, hres, hiff⟩ := hrest i (by omega)
        refine ⟨res, by simpa using hres, ?_⟩
        have hidx : j + 1 + (i + 1) = j + 1 + 1 + i := by omega
        rw [hidx]
        exact hiff
    · rw [hfinal]
      have hidx : j + 1 + len = j + (len + 1) := by omega
      rw [hidx]

/-! ## One call of the hook -/

/-- C2: watermark safety. If `PostBlock` hands a transaction to the relayer and the relayer
answers with a receipt whose status is `ReceiptFailed`, then `PostBlock` returns a non-nil
error and `lastWithdrawalBlock` is what it was before the call. -/
theorem PostBlock_failed_receipt_keeps_watermark (m : burntFeesManager R L) (env : Env R)
    (req : PostBlockRequest) (r : R) (txn : Transaction) (k : Key) (receipt : Receipt)
    (hsent : Effect.send r txn k ∈ (m.PostBlock env req).effects)
    (hanswer : env.SendTransaction r txn k = .ok receipt)
    (hfailed : receipt.Status = ReceiptFailed) :
    (m.PostBlock env req).err ≠ none ∧
      (m.PostBlock env req).manager.lastWithdrawalBlock = m.lastWithdrawalBlock := by
  obtain ⟨htrigger, hminer, hencode, rfl, rfl, htxn⟩ := PostBlock_send_mem m env req r txn k hsent
  rw [htxn] at hanswer
  rw [PostBlock_of_gate_open m env req txn.Input htrigger hminer hencode, hanswer]
  simp [hfailed]

/-- Witness for C2: offset 900, block 900 mined by the node, the receipt reports failure. -/
theorem PostBlock_failed_receipt_keeps_watermark_witness :
    Effect.send () nodeWithdrawTxn nodeKey ∈
        ((managerAt 0 900).PostBlock (envStatus ReceiptFailed)
          (requestAt 900 nodeMiner false)).effects ∧
      (envStatus ReceiptFailed).SendTransaction () nodeWithdrawTxn nodeKey
        = .ok { Status := ReceiptFailed } ∧
      ((managerAt 0 900).PostBlock (envStatus ReceiptFailed)
          (requestAt 900 nodeMiner false)).err ≠ none ∧
      ((managerAt 0 900).PostBlock (envStatus ReceiptFailed)
          (requestAt 900 nodeMiner false)).manager.lastWithdrawalBlock
        = (managerAt 0 900).lastWithdrawalBlock :=
  ⟨by decide, rfl,
    PostBlock_failed_receipt_keeps_watermark (managerAt 0 900) (envStatus ReceiptFailed)
      (requestAt 900 nodeMiner false) () nodeWithdrawTxn nodeKey { Status := ReceiptFailed }
      (by decide) rfl rfl⟩

/-- C3: on a withdrawal block whose `Miner` is the node's key address, if the encoding
succeeds and the relayer returns no error and a receipt whose status is not `ReceiptFailed`,
then `PostBlock` returns `nil` and `lastWithdrawalBlock` becomes the header number. -/
theorem PostBlock_success_advances_watermark (m : burntFeesManager R L) (env : Env R)
    (req : PostBlockRequest) (input : List Byte) (receipt : Receipt)
    (htrigger :
      m.isWithdrawalBlock req.FullBlock.Block.Header.Number req.IsEpochEndingBlock = true)
    (hminer : req.FullBlock.Block.Header.Miner = m.key.Address.Bytes)
    (hencode : env.encodeWithdraw = .ok input)
    (hanswer : env.SendTransaction m.txRelayer
        { To := some m.burntFeesManagerAddr, From := m.key.Address, Input := input } m.key
      = .ok receipt)
    (hstatus : receipt.Status ≠ ReceiptFailed) :
    (m.PostBlock env req).err = none ∧
      (m.PostBlock env req).manager.lastWithdrawalBlock
        = req.FullBlock.Block.Header.Number := by
  rw [PostBlock_of_gate_open m env req input htrigger hminer hencode, hanswer]
  simp [hstatus]

/-- Witness for C3: offset 900, block 900 mined by the node, the receipt reports success. -/
theorem PostBlock_success_advances_watermark_witness :
    (managerAt 0 900).isWithdrawalBlock 900 false = true ∧
      ((managerAt 0 900).PostBlock (envStatus ReceiptSuccess)
          (requestAt 900 nodeMiner false)).err = none ∧
      ((managerAt 0 900).PostBlock (envStatus ReceiptSuccess)
          (requestAt 900 nodeMiner false)).manager.lastWithdrawalBlock = 900 :=
  ⟨by decide,
    PostBlock_success_advances_watermark (managerAt 0 900) (envStatus ReceiptSuccess)
      (requestAt 900 nodeMiner false) withdrawInput { Status := ReceiptSuccess }
      (by decide) rfl rfl rfl (by decide)⟩

/-- C4: on a request that is not epoch-ending and whose header number differs from the
(`uint64`) sum `lastWithdrawalBlock + withdrawalOffset`, `PostBlock` is a no-op whatever the
environment: it returns `nil`, performs no action at all (no transaction is built or sent)
and leaves the manager as it was. Invoking it any number of times on that request, the
environment changing freely from call to call, gives that same outcome every time and the
same manager at the end. -/
theorem PostBlock_noop_of_no_trigger (m : burntFeesManager R L) (req : PostBlockRequest)
    (hepoch : req.IsEpochEndingBlock = false)
    (hnumber : req.FullBlock.Block.Header.Number
      ≠ (m.lastWithdrawalBlock + m.withdrawalOffset) % 2 ^ 64) :
    (∀ env : Env R, m.PostBlock env req = { manager := m, err := none, effects := [] }) ∧
      (∀ envs : List (Env R),
        postBlocks m (envs.map fun env => (env, req))
          = envs.map fun _ => { manager := m, err := none, effects := [] }) ∧
      (∀ envs : List (Env R), managerAfter m (envs.map fun env => (env, req)) = m) := by
  have hone : ∀ env : Env R,
      m.PostBlock env req = { manager := m, err := none, effects := [] } := by
    intro env
    apply PostBlock_of_gate_closed
    left
    unfold burntFeesManager.isWithdrawalBlock
    simp only [hepoch, Bool.false_or, beq_eq_false_iff_ne, ne_eq]
    exact hnumber
  refine ⟨hone, ?_, ?_⟩
  · intro envs
    induction envs with
    | nil => rfl
    | cons env rest ih =>
      simp only [List.map_cons, postBlocks, hone env]
      rw [ih]
  · intro envs
    induction envs with
    | nil => rfl
    | cons env rest ih =>
      simp only [List.map_cons, managerAfter, hone env]
      exact ih

/-- Witness for C4: watermark 100, offset 900, block 999 mined by the node. -/
theorem PostBlock_noop_of_no_trigger_witness :
    (requestAt 999 nodeMiner false).FullBlock.Block.Header.Number
        ≠ ((managerAt 100 900).lastWithdrawalBlock + (managerAt 100 900).withdrawalOffset)
            % 2 ^ 64 ∧
      ((∀ env : Env Unit, (managerAt 100 900).PostBlock env (requestAt 999 nodeMiner false)
          = { manager := managerAt 100 900, err := none, effects := [] }) ∧
        (∀ envs : List (Env Unit),
          postBlocks (managerAt 100 900) (envs.map fun env => (env, requestAt 999 nodeMiner false))
            = envs.map fun _ => { manager := managerAt 100 900, err := none, effects := [] }) ∧
        (∀ envs : List (Env Unit),
          managerAfter (managerAt 100 900)
            (envs.map fun env => (env, requestAt 999 nodeMiner false)) = managerAt 100 900)) :=
  ⟨by decide,
    PostBlock_noop_of_no_trigger (managerAt 100 900) (requestAt 999 nodeMiner false) rfl
      (by decide)⟩

/-- C5: proposer gate. If the header `Miner` is not the node's key address then `PostBlock`
returns `nil`, performs no action (in particular sends no transaction) and leaves the manager,
hence `lastWithdrawalBlock`, unchanged, whatever the block number and the epoch flag.
Conversely, a relayer call is made only if the block is a withdrawal block and the `Miner` is
the node's key address. -/
theorem PostBlock_proposer_gate (m : burntFeesManager R L) (env : Env R)
    (req : PostBlockRequest) :
    (req.FullBlock.Block.Header.Miner ≠ m.key.Address.Bytes →
        (m.PostBlock env req).err = none ∧
          (m.PostBlock env req).effects = [] ∧
          sentTransactions (m.PostBlock env req).effects = [] ∧
          (m.PostBlock env req).manager = m) ∧
      ((∃ r txn k, Effect.send r txn k ∈ (m.PostBlock env req).effects) →
        m.isWithdrawalBlock req.FullBlock.Block.Header.Number req.IsEpochEndingBlock = true ∧
          req.FullBlock.Block.Header.Miner = m.key.Address.Bytes) := by
  constructor
  · intro hminer
    rw [PostBlock_of_gate_closed m env req (Or.inr hminer)]
    exact ⟨rfl, rfl, rfl, rfl⟩
  · rintro ⟨r, txn, k, hsent⟩
    obtain ⟨htrigger, hminer, -⟩ := PostBlock_send_mem m env req r txn k hsent
    exact ⟨htrigger, hminer⟩

/-- Witness for C5: an epoch-ending block 900, equal to watermark plus offset, mined by another
validator, is skipped; the same block mined by the node reaches the relayer. -/
theorem PostBlock_proposer_gate_witness :
    (((managerAt 0 900).PostBlock (envStatus ReceiptSuccess)
          (requestAt 900 otherMiner true)).err = none ∧
        ((managerAt 0 900).PostBlock (envStatus ReceiptSuccess)
          (requestAt 900 otherMiner true)).effects = [] ∧
        sentTransactions ((managerAt 0 900).PostBlock (envStatus ReceiptSuccess)
          (requestAt 900 otherMiner true)).effects = [] ∧
        ((managerAt 0 900).PostBlock (envStatus ReceiptSuccess)
          (requestAt 900 otherMiner true)).manager = managerAt 0 900) ∧
      ((managerAt 0 900).isWithdrawalBlock
            (requestAt 900 nodeMiner true).FullBlock.Block.Header.Number
            (requestAt 900 nodeMiner true).IsEpochEndingBlock = true ∧
        (requestAt 900 nodeMiner true).FullBlock.Block.Header.Miner
          = (managerAt 0 900).key.Address.Bytes) :=
  ⟨(PostBlock_proposer_gate (managerAt 0 900) (envStatus ReceiptSuccess)
      (requestAt 900 otherMiner true)).1 (by decide),
    (PostBlock_proposer_gate (managerAt 0 900) (envStatus ReceiptSuccess)
      (requestAt 900 nodeMiner true)).2 ⟨(), nodeWithdrawTxn, nodeKey, by decide⟩⟩

/-- C6: if `PostBlock` hands a transaction to the relayer and `SendTransaction` returns the
error `e`, then `PostBlock` returns exactly `e` and `lastWithdrawalBlock` is unchanged. -/
theorem PostBlock_relayer_error_propagates (m : burntFeesManager R L) (env : Env R)
    (req : PostBlockRequest) (r : R) (txn : Transaction) (k : Key) (e : Error)
    (hsent : Effect.send r txn k ∈ (m.PostBlock env req).effects)
    (hanswer : env.SendTransaction r txn k = .error e) :
    (m.PostBlock env req).err = some e ∧
      (m.PostBlock env req).manager.lastWithdrawalBlock = m.lastWithdrawalBlock := by
  obtain ⟨htrigger, hminer, hencode, rfl, rfl, htxn⟩ := PostBlock_send_mem m env req r txn k hsent
  rw [htxn] at hanswer
  rw [PostBlock_of_gate_open m env req txn.Input htrigger hminer hencode, hanswer]
  exact ⟨rfl, rfl⟩

/-- Witness for C6: offset 900, block 900 mined by the node, the relayer fails. -/
theorem PostBlock_relayer_error_propagates_witness :
    Effect.send () nodeWithdrawTxn nodeKey ∈
        ((managerAt 0 900).PostBlock (envSendError "nonce too low")
          (requestAt 900 nodeMiner false)).effects ∧
      ((managerAt 0 900).PostBlock (envSendError "nonce too low")
          (requestAt 900 nodeMiner false)).err = some "nonce too low" ∧
      ((managerAt 0 900).PostBlock (envSendError "nonce too low")
          (requestAt 900 nodeMiner false)).manager.lastWithdrawalBlock
        = (managerAt 0 900).lastWithdrawalBlock :=
  ⟨by decide,
    PostBlock_relayer_error_propagates (managerAt 0 900) (envSendError "nonce too low")
      (requestAt 900 nodeMiner false) () nodeWithdrawTxn nodeKey "nonce too low"
      (by decide) rfl⟩

/-- C8: every transaction `PostBlock` hands to the relayer has `To` equal to the configured
`burntFeesManagerAddr`, `From` equal to the node's key address and `Input` equal to the result
of encoding the zero-argument `withdraw` method; it is sent through the manager's own relayer
with the manager's own key as signer. Block number, epoch flag and `lastWithdrawalBlock` do not
occur in any of these. -/
theorem PostBlock_sent_transaction_shape (m : burntFeesManager R L) (env : Env R)
    (req : PostBlockRequest) (r : R) (txn : Transaction) (k : Key)
    (hsent : Effect.send r txn k ∈ (m.PostBlock env req).effects) :
    txn.To = some m.burntFeesManagerAddr ∧
      txn.From = m.key.Address ∧
      env.encodeWithdraw = .ok txn.Input ∧
      k = m.key ∧
      r = m.txRelayer := by
  obtain ⟨-, -, hencode, hr, hk, htxn⟩ := PostBlock_send_mem m env req r txn k hsent
  refine ⟨?_, ?_, hencode, hk, hr⟩
  · rw [htxn]
  · rw [htxn]

/-- Witness for C8: the transaction sent on the epoch-ending block 7 by a manager with
watermark 100. -/
theorem PostBlock_sent_transaction_shape_witness :
    Effect.send () nodeWithdrawTxn nodeKey ∈
        ((managerAt 100 900).PostBlock (envStatus ReceiptSuccess)
          (requestAt 7 nodeMiner true)).effects ∧
      (nodeWithdrawTxn.To = some (managerAt 100 900).burntFeesManagerAddr ∧
        nodeWithdrawTxn.From = (managerAt 100 900).key.Address ∧
        (envStatus ReceiptSuccess).encodeWithdraw = .ok nodeWithdrawTxn.Input ∧
        nodeKey = (managerAt 100 900).key ∧
        () = (managerAt 100 900).txRelayer) :=
  ⟨by decide,
    PostBlock_sent_transaction_shape (managerAt 100 900) (envStatus ReceiptSuccess)
      (requestAt 7 nodeMiner true) () nodeWithdrawTxn nodeKey (by decide)⟩

/-- C10: `PostBlock` changes nothing of the manager but the watermark, and the watermark only
when it returns `nil`: `key`, `txRelayer`, `burntFeesManagerAddr`, `withdrawalOffset` (and
`logger`) are the same after the call as before; if `lastWithdrawalBlock` differs after the
call then the returned error is `nil`; and whenever the returned error is non-nil the whole
manager is unchanged. -/
theorem PostBlock_frame (m : burntFeesManager R L) (env : Env R) (req : PostBlockRequest) :
    (m.PostBlock env req).manager.key = m.key ∧
      (m.PostBlock env req).manager.txRelayer = m.txRelayer ∧
      (m.PostBlock env req).manager.burntFeesManagerAddr = m.burntFeesManagerAddr ∧
      (m.PostBlock env req).manager.withdrawalOffset = m.withdrawalOffset ∧
      (m.PostBlock env req).manager.logger = m.logger ∧
      ((m.PostBlock env req).manager.lastWithdrawalBlock ≠ m.lastWithdrawalBlock →
        (m.PostBlock env req).err = none) ∧
      ((m.PostBlock env req).err ≠ none → (m.PostBlock env req).manager = m) := by
  rcases PostBlock_cases m env req with h | ⟨e, effs, h⟩ | ⟨effs, h⟩ <;> rw [h] <;> simp

/-- C9 (as amended): for a request that is not epoch-ending and a manager whose
`withdrawalOffset` is a `uint64` value other than zero, if `PostBlock`
sends a withdrawal that succeeds, then `lastWithdrawalBlock` is the block number and a second
`PostBlock` on the same request, in any environment, returns `nil`, performs no action (sends
no second transaction) and leaves the manager unchanged. -/
theorem PostBlock_idempotent_after_success (m : burntFeesManager R L) (env : Env R)
    (req : PostBlockRequest)
    (hoffset : m.withdrawalOffset < 2 ^ 64)
    (hpos : m.withdrawalOffset ≠ 0)
    (hepoch : req.IsEpochEndingBlock = false)
    (hsent : ∃ r txn k, Effect.send r txn k ∈ (m.PostBlock env req).effects)
    (hsuccess : (m.PostBlock env req).err = none) :
    (m.PostBlock env req).manager.lastWithdrawalBlock = req.FullBlock.Block.Header.Number ∧
      ∀ env2 : Env R,
        (m.PostBlock env req).manager.PostBlock env2 req =
          { manager := (m.PostBlock env req).manager, err := none, effects := [] } := by
  rcases PostBlock_cases m env req with h | ⟨e, effs, h⟩ | ⟨effs, h⟩
  · rw [h] at hsent
    simp at hsent
  · rw [h] at hsuccess
    simp at hsuccess
  · rw [h]
    refine ⟨rfl, fun env2 => ?_⟩
    apply PostBlock_of_gate_closed
    left
    unfold burntFeesManager.isWithdrawalBlock
    simp only [hepoch, Bool.false_or, beq_eq_false_iff_ne, ne_eq]
    omega

/-- Witness for C9 (as amended): offset 900, block 900 mined by the node, not epoch-ending. -/
theorem PostBlock_idempotent_after_success_witness :
    (∃ r txn k, Effect.send r txn k ∈
        ((managerAt 0 900).PostBlock (envStatus ReceiptSuccess)
          (requestAt 900 nodeMiner false)).effects) ∧
      ((managerAt 0 900).PostBlock (envStatus ReceiptSuccess)
          (requestAt 900 nodeMiner false)).err = none ∧
      ((managerAt 0 900).PostBlock (envStatus ReceiptSuccess)
          (requestAt 900 nodeMiner false)).manager.lastWithdrawalBlock
        = (requestAt 900 nodeMiner false).FullBlock.Block.Header.Number ∧
      ∀ env2 : Env Unit,
        ((managerAt 0 900).PostBlock (envStatus ReceiptSuccess)
            (requestAt 900 nodeMiner false)).manager.PostBlock env2
            (requestAt 900 nodeMiner false) =
          { manager := ((managerAt 0 900).PostBlock (envStatus ReceiptSuccess)
              (requestAt 900 nodeMiner false)).manager
            err := none, effects := [] } :=
  ⟨⟨(), nodeWithdrawTxn, nodeKey, by decide⟩, rfl,
    PostBlock_idempotent_after_success (managerAt 0 900) (envStatus ReceiptSuccess)
      (requestAt 900 nodeMiner false) (by decide) (by decide) rfl
      ⟨(), nodeWithdrawTxn, nodeKey, by decide⟩ rfl⟩

/-- Counterexample to C9 as stated. On the epoch-ending block 900 mined by the node the first
call sends a withdrawal that succeeds and sets `lastWithdrawalBlock` to 900, and the second
call on the same request sends the transaction again. The same happens on a block that is not
epoch-ending when `withdrawalOffset` is 0 (watermark 5, block 5). -/
theorem PostBlock_second_call_sends_again :
    (sentTransactions ((managerAt 0 900).PostBlock (envStatus ReceiptSuccess)
          (requestAt 900 nodeMiner true)).effects = [((), nodeWithdrawTxn, nodeKey)] ∧
      ((managerAt 0 900).PostBlock (envStatus ReceiptSuccess)
          (requestAt 900 nodeMiner true)).err = none ∧
      ((managerAt 0 900).PostBlock (envStatus ReceiptSuccess)
          (requestAt 900 nodeMiner true)).manager.lastWithdrawalBlock = 900 ∧
      sentTransactions
          (((managerAt 0 900).PostBlock (envStatus ReceiptSuccess)
            (requestAt 900 nodeMiner true)).manager.PostBlock (envStatus ReceiptSuccess)
            (requestAt 900 nodeMiner true)).effects = [((), nodeWithdrawTxn, nodeKey)]) ∧
    (sentTransactions ((managerAt 5 0).PostBlock (envStatus ReceiptSuccess)
          (requestAt 5 nodeMiner false)).effects = [((), nodeWithdrawTxn, nodeKey)] ∧
      ((managerAt 5 0).PostBlock (envStatus ReceiptSuccess)
          (requestAt 5 nodeMiner false)).err = none ∧
      ((managerAt 5 0).PostBlock (envStatus ReceiptSuccess)
          (requestAt 5 nodeMiner false)).manager.lastWithdrawalBlock = 5 ∧
      sentTransactions
          (((managerAt 5 0).PostBlock (envStatus ReceiptSuccess)
            (requestAt 5 nodeMiner false)).manager.PostBlock (envStatus ReceiptSuccess)
            (requestAt 5 nodeMiner false)).effects = [((), nodeWithdrawTxn, nodeKey)]) := by
  decide

/-! ## Cadence -/

/-- C7: cadence over a run of blocks. For an offset `k > 0` and a last block `n` (both `uint64`
values), a manager fresh from `newBurntFeesManager` processes the blocks `1, 2, ..., n` in
order, none epoch-ending, the node being the miner of every block whose number is a multiple
of `k`, the encoding succeeding and the relayer always answering with a receipt that is not
failed (`CadenceCall`). Then a transaction is sent at block `b` if and only if `k` divides `b`,
and `lastWithdrawalBlock` ends as `k * (n / k)`, the largest multiple of `k` that is at most
`n`. Moreover, with watermark 100 and offset 900 the only block that triggers without being
epoch-ending is block 1000. -/
theorem PostBlock_cadence (key : Key) (txRelayer : R) (k : Nat) (addr : Address) (logger : L)
    (n : Nat) (calls : Nat → Env R × PostBlockRequest)
    (hk : 0 < k) (hk64 : k < 2 ^ 64) (hn : n < 2 ^ 64)
    (hcalls : ∀ b, 1 ≤ b → b ≤ n → CadenceCall key k b (calls b)) :
    (∀ b, 1 ≤ b → b ≤ n → ∃ res,
        (postBlocks (newBurntFeesManager key txRelayer k addr logger)
            ((List.range' 1 n).map calls))[b - 1]? = some res ∧
          ((∃ r txn signer, Effect.send r txn signer ∈ res.effects) ↔ k ∣ b)) ∧
      (managerAfter (newBurntFeesManager key txRelayer k addr logger)
          ((List.range' 1 n).map calls)).lastWithdrawalBlock = k * (n / k) ∧
      (∀ (m : burntFeesManager R L) (b : Nat), m.lastWithdrawalBlock = 100 →
        m.withdrawalOffset = 900 → (m.isWithdrawalBlock b false = true ↔ b = 1000)) := by
  obtain ⟨hsend, hfinal⟩ :=
    postBlocks_cadence key k calls hk hk64 n 0
      (newBurntFeesManager key txRelayer k addr logger) rfl rfl
      (by simp [newBurntFeesManager]) (by omega)
      (fun b hb1 hb2 => hcalls b (by omega) (by omega))
  refine ⟨?_, ?_, ?_⟩
  · intro b hb1 hb2
    obtain ⟨res, hres, hiff⟩ := hsend (b - 1) (by omega)
    have hidx : 0 + 1 + (b - 1) = b := by omega
    rw [hidx] at hiff
    exact ⟨res, hres, hiff⟩
  · simpa using hfinal
  · intro m b hlast hoffset
    unfold burntFeesManager.isWithdrawalBlock
    rw [hlast, hoffset]
    simp

/-- Witness for C7: offset 900 and blocks 1 to 1800, the node mining the multiples of 900 and
nothing else. A transaction is sent at block `b` exactly when 900 divides `b` (so at 900 and
1800 and at no block from 901 to 1799), and the watermark ends at 1800. -/
theorem PostBlock_cadence_witness :
    (0 < 900 ∧ 900 < 2 ^ 64 ∧ 1800 < 2 ^ 64) ∧
      (∀ b, 1 ≤ b → b ≤ 1800 → CadenceCall nodeKey 900 b (cadenceStep b)) ∧
      ((∀ b, 1 ≤ b → b ≤ 1800 → ∃ res,
          (postBlocks (newBurntFeesManager nodeKey () 900 burnContract ())
              ((List.range' 1 1800).map cadenceStep))[b - 1]? = some res ∧
            ((∃ r txn signer, Effect.send r txn signer ∈ res.effects) ↔ 900 ∣ b)) ∧
        (managerAfter (newBurntFeesManager nodeKey () 900 burnContract ())
            ((List.range' 1 1800).map cadenceStep)).lastWithdrawalBlock = 900 * (1800 / 900) ∧
        (∀ (m : burntFeesManager Unit Unit) (b : Nat), m.lastWithdrawalBlock = 100 →
          m.withdrawalOffset = 900 → (m.isWithdrawalBlock b false = true ↔ b = 1000))) :=
  have hcalls : ∀ b, 1 ≤ b → b ≤ 1800 → CadenceCall nodeKey 900 b (cadenceStep b) :=
    fun b _ _ =>
      ⟨rfl, rfl, fun h => by simp [cadenceStep, requestAt, h, nodeMiner],
        ⟨withdrawInput, rfl⟩, fun _ _ _ => ⟨{ Status := ReceiptSuccess }, rfl, by decide⟩⟩
  ⟨⟨by decide, by decide, by decide⟩, hcalls,
    PostBlock_cadence nodeKey () 900 burnContract () 1800 cadenceStep (by decide) (by decide)
      (by decide) hcalls⟩

/-! ## Relayer calls and completed withdrawals of one call -/

/-- The manager after `PostBlock`: the watermark is the header number when the call completed
a withdrawal with a non-failed receipt, and nothing changed otherwise. Also, the call hands at
most one transaction to the relayer. -/
theorem PostBlock_manager_of_completed (m : burntFeesManager R L) (env : Env R)
    (req : PostBlockRequest) :
    (m.PostBlock env req).manager =
        (if completedWithdrawal m env req then
          { m with lastWithdrawalBlock := req.FullBlock.Block.Header.Number }
        else m) ∧
      (sentTransactions (m.PostBlock env req).effects).length ≤ 1 := by
  unfold completedWithdrawal
  by_cases htrigger :
      m.isWithdrawalBlock req.FullBlock.Block.Header.Number req.IsEpochEndingBlock = true
  · by_cases hminer : req.FullBlock.Block.Header.Miner = m.key.Address.Bytes
    · cases hencode : env.encodeWithdraw with
      | error e =>
        rw [PostBlock_of_encode_error m env req e htrigger hminer hencode]
        simp [sentTransactions]
      | ok input =>
        rw [PostBlock_of_gate_open m env req input htrigger hminer hencode]
        cases hanswer : env.SendTransaction m.txRelayer
            { To := some m.burntFeesManagerAddr, From := m.key.Address, Input := input }
            m.key with
        | error e => simp [sentTransactions, hanswer]
        | ok receipt =>
          by_cases hstatus : receipt.Status = ReceiptFailed
          · simp [sentTransactions, hanswer, hstatus]
          · simp [sentTransactions, hanswer, hstatus]
    · rw [PostBlock_of_gate_closed m env req (Or.inr hminer)]
      simp [sentTransactions]
  · rw [PostBlock_of_gate_closed m env req (Or.inl (by simpa using htrigger))]
    simp [sentTransactions]

/-- A sequence of calls none of which passes the gate of `PostBlock` changes nothing: each
returns `nil` without any action, and what follows starts from the same manager. -/
theorem postBlocks_of_gate_closed (m : burntFeesManager R L)
    (calls rest : List (Env R × PostBlockRequest))
    (h : ∀ call ∈ calls,
      m.isWithdrawalBlock call.2.FullBlock.Block.Header.Number call.2.IsEpochEndingBlock = false ∨
        call.2.FullBlock.Block.Header.Miner ≠ m.key.Address.Bytes) :
    postBlocks m (calls ++ rest)
        = (calls.map fun _ => { manager := m, err := none, effects := [] }) ++ postBlocks m rest ∧
      managerAfter m (calls ++ rest) = managerAfter m rest := by
  induction calls with
  | nil => exact ⟨rfl, rfl⟩
  | cons call calls ih =>
    have hcall := PostBlock_of_gate_closed m call.1 call.2 (h call (List.mem_cons_self _ _))
    obtain ⟨ih1, ih2⟩ := ih (fun c hc => h c (List.mem_cons_of_mem _ hc))
    rw [List.cons_append, postBlocks_cons, managerAfter_cons, hcall]
    exact ⟨by rw [ih1]; rfl, ih2⟩

/-- A block number strictly above the exact sum of watermark and offset, when that sum does not
overflow, is not the trigger block. -/
theorem isWithdrawalBlock_of_late (m : burntFeesManager R L) (blockNumber : Nat)
    (hsum : m.lastWithdrawalBlock + m.withdrawalOffset < 2 ^ 64)
    (hlate : m.lastWithdrawalBlock + m.withdrawalOffset < blockNumber) :
    m.isWithdrawalBlock blockNumber false = false := by
  unfold burntFeesManager.isWithdrawalBlock
  simp only [Bool.false_or, beq_eq_false_iff_ne, ne_eq]
  omega

/-- The watermark after a sequence of calls from any manager: the block number of the most
recent call that completed a withdrawal, or the starting watermark when none did. -/
theorem managerAfter_watermark (calls : List (Env R × PostBlockRequest)) :
    ∀ m : burntFeesManager R L,
      (managerAfter m calls).lastWithdrawalBlock
        = (lastCompletedBlock m calls).getD m.lastWithdrawalBlock := by
  induction calls with
  | nil => intro m; rfl
  | cons call calls ih =>
    intro m
    obtain ⟨env, req⟩ := call
    have hstep := (PostBlock_manager_of_completed m env req).1
    have hrest := ih (m.PostBlock env req).manager
    simp only [managerAfter, lastCompletedBlock]
    rw [hrest]
    cases hlast : lastCompletedBlock (m.PostBlock env req).manager calls with
    | some b => rfl
    | none =>
      rw [hstep]
      cases completedWithdrawal m env req <;> rfl

/-! ## The watermark over runs of calls -/

/-- C11: the watermark as a reachable-state invariant. After any finite sequence of `PostBlock`
calls on a manager built by `newBurntFeesManager`, with arbitrary requests and arbitrary
answers of encoder and relayer, `lastWithdrawalBlock` is 0 if no call of the sequence completed
a withdrawal with a non-failed receipt, and otherwise it is the block number of the most
recent call that did. -/
theorem watermark_is_last_completed_block (key : Key) (txRelayer : R) (withdrawalOffset : Nat)
    (addr : Address) (logger : L) (calls : List (Env R × PostBlockRequest)) :
    (lastCompletedBlock (newBurntFeesManager key txRelayer withdrawalOffset addr logger) calls
        = none →
      (managerAfter (newBurntFeesManager key txRelayer withdrawalOffset addr logger)
        calls).lastWithdrawalBlock = 0) ∧
    (∀ b,
      lastCompletedBlock (newBurntFeesManager key txRelayer withdrawalOffset addr logger) calls
        = some b →
      (managerAfter (newBurntFeesManager key txRelayer withdrawalOffset addr logger)
        calls).lastWithdrawalBlock = b) := by
  have h := managerAfter_watermark calls
    (newBurntFeesManager key txRelayer withdrawalOffset addr logger)
  constructor
  · intro hnone
    rw [h, hnone]
    rfl
  · intro b hsome
    rw [h, hsome]
    rfl

/-- Witness for C11: a fresh manager with offset 2 on the blocks 1 to 5 of `epochRun`; the most
recent completed withdrawal is that of block 5, and the watermark is 5. -/
theorem watermark_is_last_completed_block_witness :
    lastCompletedBlock (newBurntFeesManager nodeKey () 2 burnContract ()) epochRun = some 5 ∧
      (managerAfter (newBurntFeesManager nodeKey () 2 burnContract ())
        epochRun).lastWithdrawalBlock = 5 :=
  ⟨by decide,
    (watermark_is_last_completed_block nodeKey () 2 burnContract () epochRun).2 5 (by decide)⟩

/-- C12: a missed offset block is never caught up. If `lastWithdrawalBlock + withdrawalOffset`
does not overflow `uint64` and every request of a sequence is not epoch-ending and has a block
number strictly greater than that sum, then no call of the sequence performs any action (no
transaction is sent), each returns `nil`, and the manager, hence `lastWithdrawalBlock`, never
changes. The same holds when the sequence follows a call, on any request, that did not advance
the watermark. On a block above the sum a transaction is sent only if the block is
epoch-ending and mined by the node. -/
theorem PostBlock_missed_block_never_caught_up (m : burntFeesManager R L)
    (calls : List (Env R × PostBlockRequest))
    (hsum : m.lastWithdrawalBlock + m.withdrawalOffset < 2 ^ 64)
    (hcalls : ∀ call ∈ calls, call.2.IsEpochEndingBlock = false ∧
      m.lastWithdrawalBlock + m.withdrawalOffset < call.2.FullBlock.Block.Header.Number) :
    postBlocks m calls = (calls.map fun _ => { manager := m, err := none, effects := [] }) ∧
      managerAfter m calls = m ∧
      (∀ (env : Env R) (req : PostBlockRequest),
        (m.PostBlock env req).manager.lastWithdrawalBlock = m.lastWithdrawalBlock →
        postBlocks (m.PostBlock env req).manager calls
            = (calls.map fun _ => { manager := m, err := none, effects := [] }) ∧
          managerAfter (m.PostBlock env req).manager calls = m) ∧
      (∀ (env : Env R) (req : PostBlockRequest),
        m.lastWithdrawalBlock + m.withdrawalOffset < req.FullBlock.Block.Header.Number →
        (∃ r txn k, Effect.send r txn k ∈ (m.PostBlock env req).effects) →
        req.IsEpochEndingBlock = true ∧
          req.FullBlock.Block.Header.Miner = m.key.Address.Bytes) := by
  have hclosed : ∀ call ∈ calls,
      m.isWithdrawalBlock call.2.FullBlock.Block.Header.Number call.2.IsEpochEndingBlock = false ∨
        call.2.FullBlock.Block.Header.Miner ≠ m.key.Address.Bytes := by
    intro call hcall
    obtain ⟨hepoch, hlate⟩ := hcalls call hcall
    left
    rw [hepoch]
    exact isWithdrawalBlock_of_late m _ hsum hlate
  have hrun := postBlocks_of_gate_closed m calls [] hclosed
  simp only [List.append_nil, postBlocks, managerAfter] at hrun
  refine ⟨hrun.1, hrun.2, ?_, ?_⟩
  · intro env req hsame
    have hmanager : (m.PostBlock env req).manager = m := by
      rcases PostBlock_cases m env req with h | ⟨e, effs, h⟩ | ⟨effs, h⟩
      · rw [h]
      · rw [h]
      · rw [h] at hsame ⊢
        simp only at hsame
        rw [hsame]
    rw [hmanager]
    exact hrun
  · rintro env req hlate ⟨r, txn, k, hsent⟩
    obtain ⟨htrigger, hminer, -⟩ := PostBlock_send_mem m env req r txn k hsent
    refine ⟨?_, hminer⟩
    cases hepoch : req.IsEpochEndingBlock with
    | true => rfl
    | false =>
      rw [hepoch, isWithdrawalBlock_of_late m _ hsum hlate] at htrigger
      exact absurd htrigger (by decide)

/-- Witness for C12: watermark 100 and offset 900; block 1000 was missed and the blocks 1001
to 1003, all mined by the node, are skipped. -/
theorem PostBlock_missed_block_never_caught_up_witness :
    (managerAt 100 900).lastWithdrawalBlock + (managerAt 100 900).withdrawalOffset < 2 ^ 64 ∧
      postBlocks (managerAt 100 900) lateBlocks
        = (lateBlocks.map fun _ =>
            { manager := managerAt 100 900, err := none, effects := [] }) ∧
      managerAfter (managerAt 100 900) lateBlocks = managerAt 100 900 :=
  have h := PostBlock_missed_block_never_caught_up (managerAt 100 900) lateBlocks (by decide)
    (by decide)
  ⟨by decide, h.1, h.2.1⟩

/-! ## Error paths, classification of receipts and the proposer check -/

/-- C13: no retry inside one block's processing. For every manager, environment (encoder and
relayer answers) and request, one call of `PostBlock` hands at most one transaction to the
relayer, whether the relayer answers with an error, a failed receipt or a good one. -/
theorem PostBlock_sends_at_most_once (m : burntFeesManager R L) (env : Env R)
    (req : PostBlockRequest) :
    (sentTransactions (m.PostBlock env req).effects).length ≤ 1 :=
  (PostBlock_manager_of_completed m env req).2

/-- C15: on a request that passes the trigger and miner checks, if encoding the `withdraw`
input fails with error `e`, then `PostBlock` returns `e`, records no relayer call and leaves
`lastWithdrawalBlock` (indeed the whole manager) unchanged. -/
theorem PostBlock_encode_error_propagates (m : burntFeesManager R L) (env : Env R)
    (req : PostBlockRequest) (e : Error)
    (htrigger :
      m.isWithdrawalBlock req.FullBlock.Block.Header.Number req.IsEpochEndingBlock = true)
    (hminer : req.FullBlock.Block.Header.Miner = m.key.Address.Bytes)
    (hencode : env.encodeWithdraw = .error e) :
    (m.PostBlock env req).err = some e ∧
      sentTransactions (m.PostBlock env req).effects = [] ∧
      (∀ r txn k, Effect.send r txn k ∉ (m.PostBlock env req).effects) ∧
      (m.PostBlock env req).manager.lastWithdrawalBlock = m.lastWithdrawalBlock ∧
      (m.PostBlock env req).manager = m := by
  rw [PostBlock_of_encode_error m env req e htrigger hminer hencode]
  simp [sentTransactions]

/-- Witness for C15: offset 900, block 900 mined by the node, the encoder fails. -/
theorem PostBlock_encode_error_propagates_witness :
    (managerAt 0 900).isWithdrawalBlock 900 false = true ∧
      ((managerAt 0 900).PostBlock (envEncodeError "abi: bad arguments")
          (requestAt 900 nodeMiner false)).err = some "abi: bad arguments" ∧
      sentTransactions ((managerAt 0 900).PostBlock (envEncodeError "abi: bad arguments")
          (requestAt 900 nodeMiner false)).effects = [] :=
  have h := PostBlock_encode_error_propagates (managerAt 0 900)
    (envEncodeError "abi: bad arguments") (requestAt 900 nodeMiner false) "abi: bad arguments"
    (by decide) rfl rfl
  ⟨by decide, h.1, h.2.1⟩

/-- C16: the default withdrawal offset `defaultBurntFeesWithdrawalOffset` is exactly 900, a
`uint64` value. -/
theorem defaultBurntFeesWithdrawalOffset_eq :
    defaultBurntFeesWithdrawalOffset = 900 ∧ defaultBurntFeesWithdrawalOffset < 2 ^ 64 := by
  decide

/-- C18: the trigger sum is a `uint64` sum. On a block that is not epoch-ending,
`isWithdrawalBlock` is true if and only if the block number is
`(lastWithdrawalBlock + withdrawalOffset) mod 2 ^ 64`. Hence it agrees with the exact-sum
trigger when the sum is below `2 ^ 64`, and when the sum overflows it triggers at the wrapped
block number: with watermark `2 ^ 64 - 1` and offset 1 it triggers on block 0 (and on no
other). -/
theorem isWithdrawalBlock_uint64_sum (m : burntFeesManager R L) (blockNumber : Nat) :
    (m.isWithdrawalBlock blockNumber false = true ↔
        blockNumber = (m.lastWithdrawalBlock + m.withdrawalOffset) % 2 ^ 64) ∧
      (m.lastWithdrawalBlock + m.withdrawalOffset < 2 ^ 64 →
        (m.isWithdrawalBlock blockNumber false = true ↔
          blockNumber = m.lastWithdrawalBlock + m.withdrawalOffset)) ∧
      (2 ^ 64 ≤ m.lastWithdrawalBlock + m.withdrawalOffset →
        m.lastWithdrawalBlock < 2 ^ 64 → m.withdrawalOffset < 2 ^ 64 →
        (m.isWithdrawalBlock blockNumber false = true ↔
          blockNumber = m.lastWithdrawalBlock + m.withdrawalOffset - 2 ^ 64)) ∧
      (m.lastWithdrawalBlock = 2 ^ 64 - 1 → m.withdrawalOffset = 1 →
        (m.isWithdrawalBlock blockNumber false = true ↔ blockNumber = 0)) := by
  have hiff : m.isWithdrawalBlock blockNumber false = true ↔
      blockNumber = (m.lastWithdrawalBlock + m.withdrawalOffset) % 2 ^ 64 := by
    unfold burntFeesManager.isWithdrawalBlock
    simp
  refine ⟨hiff, ?_, ?_, ?_⟩
  · intro hsum
    rw [hiff, Nat.mod_eq_of_lt hsum]
  · intro hsum hlast hoffset
    rw [hiff]
    omega
  · intro hlast hoffset
    rw [hiff, hlast, hoffset]
    norm_num

/-- Witness for C18: the manager with watermark `2 ^ 64 - 1` and offset 1 triggers on block 0,
and the manager with watermark 100 and offset 900 on block 1000. -/
theorem isWithdrawalBlock_uint64_sum_witness :
    (managerAt (2 ^ 64 - 1) 1).isWithdrawalBlock 0 false = true ∧
      (managerAt 100 900).isWithdrawalBlock 1000 false = true :=
  ⟨((isWithdrawalBlock_uint64_sum (managerAt (2 ^ 64 - 1) 1) 0).2.2.2 rfl rfl).mpr rfl,
    ((isWithdrawalBlock_uint64_sum (managerAt 100 900) 1000).2.1 (by decide)).mpr rfl⟩

/-- C19: receipts are classified by comparison with `ReceiptFailed` only. When `PostBlock`
hands a transaction to the relayer and the relayer answers with a receipt and no error,
`PostBlock` returns an error if and only if the status of the receipt is `ReceiptFailed`, and
then the watermark is kept; for every other status it returns `nil` and sets
`lastWithdrawalBlock` to the block number. -/
theorem PostBlock_receipt_classification (m : burntFeesManager R L) (env : Env R)
    (req : PostBlockRequest) (r : R) (txn : Transaction) (k : Key) (receipt : Receipt)
    (hsent : Effect.send r txn k ∈ (m.PostBlock env req).effects)
    (hanswer : env.SendTransaction r txn k = .ok receipt) :
    ((m.PostBlock env req).err ≠ none ↔ receipt.Status = ReceiptFailed) ∧
      (receipt.Status = ReceiptFailed →
        (m.PostBlock env req).manager.lastWithdrawalBlock = m.lastWithdrawalBlock) ∧
      (receipt.Status ≠ ReceiptFailed →
        (m.PostBlock env req).err = none ∧
          (m.PostBlock env req).manager.lastWithdrawalBlock
            = req.FullBlock.Block.Header.Number) := by
  obtain ⟨htrigger, hminer, hencode, rfl, rfl, htxn⟩ := PostBlock_send_mem m env req r txn k hsent
  rw [htxn] at hanswer
  rw [PostBlock_of_gate_open m env req txn.Input htrigger hminer hencode, hanswer]
  by_cases hstatus : receipt.Status = ReceiptFailed
  · simp [hstatus]
  · simp [hstatus]

/-- Witness for C19: a receipt with status 7, neither `ReceiptFailed` nor `ReceiptSuccess`, makes
`PostBlock` return `nil` and advance the watermark to 900. -/
theorem PostBlock_receipt_classification_witness :
    Effect.send () nodeWithdrawTxn nodeKey ∈
        ((managerAt 0 900).PostBlock (envStatus 7) (requestAt 900 nodeMiner false)).effects ∧
      (7 ≠ ReceiptFailed ∧ 7 ≠ ReceiptSuccess) ∧
      ((managerAt 0 900).PostBlock (envStatus 7) (requestAt 900 nodeMiner false)).err = none ∧
      ((managerAt 0 900).PostBlock (envStatus 7)
        (requestAt 900 nodeMiner false)).manager.lastWithdrawalBlock = 900 :=
  ⟨by decide, by decide,
    (PostBlock_receipt_classification (managerAt 0 900) (envStatus 7)
      (requestAt 900 nodeMiner false) () nodeWithdrawTxn nodeKey { Status := 7 }
      (by decide) rfl).2.2 (by decide)⟩

/-- C20: the proposer check compares the header's `Miner` bytes with the 20 bytes of the node's
key address. For every request whose `Miner` has a length other than 20, whatever the block
number and the epoch flag, `PostBlock` returns `nil`, performs no action (sends no transaction)
and leaves the manager unchanged. -/
theorem PostBlock_miner_length_mismatch (m : burntFeesManager R L) (env : Env R)
    (req : PostBlockRequest)
    (hlength : req.FullBlock.Block.Header.Miner.length ≠ 20) :
    (m.PostBlock env req).err = none ∧
      (m.PostBlock env req).effects = [] ∧
      sentTransactions (m.PostBlock env req).effects = [] ∧
      (m.PostBlock env req).manager = m := by
  have hminer : req.FullBlock.Block.Header.Miner ≠ m.key.Address.Bytes := by
    intro h
    apply hlength
    rw [h]
    exact m.key.Address.property
  rw [PostBlock_of_gate_closed m env req (Or.inr hminer)]
  exact ⟨rfl, rfl, rfl, rfl⟩

/-- Witness for C20: on the epoch-ending block 900, equal to watermark plus offset, an empty
`Miner` and the node's address zero-padded to 32 bytes are both skipped. -/
theorem PostBlock_miner_length_mismatch_witness :
    ((requestAt 900 [] true).FullBlock.Block.Header.Miner.length ≠ 20 ∧
        (requestAt 900 paddedMiner true).FullBlock.Block.Header.Miner.length = 32) ∧
      (((managerAt 0 900).PostBlock (envStatus ReceiptSuccess) (requestAt 900 [] true)).err
          = none ∧
        ((managerAt 0 900).PostBlock (envStatus ReceiptSuccess)
          (requestAt 900 [] true)).effects = []) ∧
      (((managerAt 0 900).PostBlock (envStatus ReceiptSuccess)
          (requestAt 900 paddedMiner true)).err = none ∧
        ((managerAt 0 900).PostBlock (envStatus ReceiptSuccess)
          (requestAt 900 paddedMiner true)).effects = []) :=
  have h1 := PostBlock_miner_length_mismatch (managerAt 0 900) (envStatus ReceiptSuccess)
    (requestAt 900 [] true) (by decide)
  have h2 := PostBlock_miner_length_mismatch (managerAt 0 900) (envStatus ReceiptSuccess)
    (requestAt 900 paddedMiner true) (by decide)
  ⟨⟨by decide, by decide⟩, ⟨h1.1, h1.2.1⟩, ⟨h2.1, h2.2.1⟩⟩

/-! ## Withdrawals per epoch -/

/-- No transaction is counted in a list of outcomes that performed no action. -/
theorem sentCount_of_no_action (m : burntFeesManager R L) (calls : List (Env R × PostBlockRequest))
    (rest : List (PostBlockResult R L)) :
    sentCount ((calls.map fun _ => { manager := m, err := none, effects := [] }) ++ rest)
      = sentCount rest := by
  induction calls with
  | nil => rfl
  | cons call calls ih =>
    simp only [sentCount, List.map_cons, List.cons_append, List.sum_cons, sentTransactions,
      List.length_nil, Nat.zero_add] at ih ⊢
    exact ih

/-- C14 (as amended): over an epoch, that is a run of blocks of which only the last is
epoch-ending, processed in order by `PostBlock`, if no block before the last has the number
`lastWithdrawalBlock + withdrawalOffset` (the `uint64` sum, for the starting watermark), the
node mines the last block and encoder and relayer succeed on it, then exactly one withdrawal
transaction is sent during the run, at the epoch-ending block, and the watermark ends as the
number of that block. -/
theorem PostBlock_once_per_epoch (m : burntFeesManager R L)
    (calls : List (Env R × PostBlockRequest)) (final : Env R × PostBlockRequest)
    (input : List Byte) (receipt : Receipt)
    (hcalls : ∀ call ∈ calls, call.2.IsEpochEndingBlock = false ∧
      call.2.FullBlock.Block.Header.Number
        ≠ (m.lastWithdrawalBlock + m.withdrawalOffset) % 2 ^ 64)
    (hepoch : final.2.IsEpochEndingBlock = true)
    (hminer : final.2.FullBlock.Block.Header.Miner = m.key.Address.Bytes)
    (hencode : final.1.encodeWithdraw = .ok input)
    (hanswer : final.1.SendTransaction m.txRelayer
        { To := some m.burntFeesManagerAddr, From := m.key.Address, Input := input } m.key
      = .ok receipt)
    (hstatus : receipt.Status ≠ ReceiptFailed) :
    sentCount (postBlocks m (calls ++ [final])) = 1 ∧
      sentCount (postBlocks m calls) = 0 ∧
      (managerAfter m (calls ++ [final])).lastWithdrawalBlock
        = final.2.FullBlock.Block.Header.Number := by
  have hclosed : ∀ call ∈ calls,
      m.isWithdrawalBlock call.2.FullBlock.Block.Header.Number call.2.IsEpochEndingBlock = false ∨
        call.2.FullBlock.Block.Header.Miner ≠ m.key.Address.Bytes := by
    intro call hcall
    obtain ⟨hmid, hnumber⟩ := hcalls call hcall
    left
    unfold burntFeesManager.isWithdrawalBlock
    simp only [hmid, Bool.false_or, beq_eq_false_iff_ne, ne_eq]
    exact hnumber
  have htrigger : m.isWithdrawalBlock final.2.FullBlock.Block.Header.Number
      final.2.IsEpochEndingBlock = true := by
    unfold burntFeesManager.isWithdrawalBlock
    simp [hepoch]
  have hfinal := PostBlock_of_gate_open m final.1 final.2 input htrigger hminer hencode
  rw [hanswer] at hfinal
  simp only [hstatus, if_false] at hfinal
  obtain ⟨hrun, hafter⟩ := postBlocks_of_gate_closed m calls [final] hclosed
  obtain ⟨hrun0, -⟩ := postBlocks_of_gate_closed m calls [] hclosed
  refine ⟨?_, ?_, ?_⟩
  · rw [hrun, sentCount_of_no_action, postBlocks_cons, hfinal]
    simp [sentCount, sentTransactions, postBlocks]
  · rw [List.append_nil] at hrun0
    have h := sentCount_of_no_action m calls []
    rw [List.append_nil] at h
    rw [hrun0, postBlocks, List.append_nil, h]
    rfl
  · rw [hafter, managerAfter_cons, hfinal]
    rfl

/-- Witness for C14 (as amended): watermark 0 and offset 900 on the epoch of blocks 1 to 5; only
the epoch-ending block 5 sends a transaction. -/
theorem PostBlock_once_per_epoch_witness :
    sentCount (postBlocks (managerAt 0 900) (epochMiddle ++ [epochEnd])) = 1 ∧
      sentCount (postBlocks (managerAt 0 900) epochMiddle) = 0 ∧
      (managerAfter (managerAt 0 900) (epochMiddle ++ [epochEnd])).lastWithdrawalBlock
        = epochEnd.2.FullBlock.Block.Header.Number :=
  PostBlock_once_per_epoch (managerAt 0 900) epochMiddle epochEnd
    withdrawInput { Status := ReceiptSuccess } (by decide) rfl rfl rfl rfl (by decide)

/-- Counterexample to C14 as stated: with watermark 0 and offset 2, on the epoch of blocks 1 to
5 (only block 5 epoch-ending, the node mining every block, the relayer always succeeding),
transactions are sent at blocks 2, 4 and 5: three in one epoch. -/
theorem PostBlock_three_withdrawals_in_one_epoch :
    (epochRun.map fun call =>
        (call.2.FullBlock.Block.Header.Number, call.2.IsEpochEndingBlock,
          call.2.FullBlock.Block.Header.Miner == nodeKey.Address.Bytes))
        = [(1, false, true), (2, false, true), (3, false, true), (4, false, true),
            (5, true, true)] ∧
      ((postBlocks (managerAt 0 2) epochRun).map fun res =>
          (sentTransactions res.effects).length) = [0, 1, 0, 1, 1] ∧
      sentCount (postBlocks (managerAt 0 2) epochRun) = 3 := by
  decide

/-! ## Checkpoint catch-up -/

/-- Closed form of one cycle of submissions: with the channel up, as many epochs as budget and
backlog allow are submitted, oldest first; with the channel down, none. -/
theorem submitBacklog_eq (completed : Nat) (channelUp : Bool) :
    ∀ budget last : Nat,
      submitBacklog completed channelUp budget last
        = (last + (if channelUp then min budget (completed - last) else 0),
            List.range' (last + 1) (if channelUp then min budget (completed - last) else 0)) := by
  intro budget
  induction budget with
  | zero =>
    intro last
    cases channelUp <;> simp [submitBacklog]
  | succ budget ih =>
    intro last
    cases channelUp with
    | false => simp [submitBacklog]
    | true =>
      by_cases hlast : last < completed
      · have hmin : min (budget + 1) (completed - last)
            = min budget (completed - (last + 1)) + 1 := by omega
        simp only [submitBacklog, hlast, decide_True, Bool.and_self, if_true, ih (last + 1), hmin,
          List.range'_succ]
        refine Prod.ext ?_ rfl
        simp only
        omega
      · have hmin : min (budget + 1) (completed - last) = 0 := by omega
        simp [submitBacklog, hlast, hmin]

/-- One post-block cycle of the checkpoint manager: the epochs submitted are the consecutive
ones after the counter, the counter does not decrease, and size and policy are kept. -/
theorem CheckpointManager.PostBlock_order (c : CheckpointManager) (block : Nat)
    (channelUp : Bool) :
    (c.PostBlock block channelUp).2
        = List.range' (c.lastCheckpointedEpoch + 1)
            ((c.PostBlock block channelUp).1.lastCheckpointedEpoch - c.lastCheckpointedEpoch) ∧
      c.lastCheckpointedEpoch ≤ (c.PostBlock block channelUp).1.lastCheckpointedEpoch ∧
      (c.PostBlock block channelUp).1.epochSize = c.epochSize ∧
      (c.PostBlock block channelUp).1.drainInCycle = c.drainInCycle := by
  refine ⟨?_, ?_, rfl, rfl⟩
  · simp only [CheckpointManager.PostBlock, submitBacklog_eq]
    rw [Nat.add_sub_cancel_left]
  · simp only [CheckpointManager.PostBlock, submitBacklog_eq]
    exact Nat.le_add_right _ _

/-- With the channel down a post-block cycle changes nothing and submits nothing. -/
theorem CheckpointManager.PostBlock_down (c : CheckpointManager) (block : Nat) :
    c.PostBlock block false = (c, []) := by
  simp [CheckpointManager.PostBlock, submitBacklog_eq]

/-- With the channel up a post-block cycle submits at least one epoch while a backlog
exists. -/
theorem CheckpointManager.PostBlock_progress (c : CheckpointManager) (block : Nat) :
    min (c.lastCheckpointedEpoch + 1) (block / c.epochSize)
      ≤ (c.PostBlock block true).1.lastCheckpointedEpoch := by
  simp only [CheckpointManager.PostBlock, submitBacklog_eq, if_true]
  cases c.drainInCycle
  · simp only [Bool.false_eq_true, if_false]
    omega
  · simp only [if_true]
    omega

/-- Unfolding of `runCheckpoints` on a non-empty sequence of blocks. -/
theorem runCheckpoints_cons (c : CheckpointManager) (block : Nat) (channelUp : Bool)
    (rest : List (Nat × Bool)) :
    runCheckpoints c ((block, channelUp) :: rest)
      = ((runCheckpoints (c.PostBlock block channelUp).1 rest).1,
          (c.PostBlock block channelUp).2
            ++ (runCheckpoints (c.PostBlock block channelUp).1 rest).2) := rfl

/-- Checkpoints are submitted in epoch order whatever the availability of the channel: over any
sequence of blocks the epochs submitted are the consecutive ones after the starting counter, up
to the final counter; the counter never decreases and the epoch size is kept. -/
theorem runCheckpoints_order (blocks : List (Nat × Bool)) :
    ∀ c : CheckpointManager,
      (runCheckpoints c blocks).2
          = List.range' (c.lastCheckpointedEpoch + 1)
              ((runCheckpoints c blocks).1.lastCheckpointedEpoch - c.lastCheckpointedEpoch) ∧
        c.lastCheckpointedEpoch ≤ (runCheckpoints c blocks).1.lastCheckpointedEpoch ∧
        (runCheckpoints c blocks).1.epochSize = c.epochSize := by
  induction blocks with
  | nil =>
    intro c
    simp [runCheckpoints]
  | cons head rest ih =>
    intro c
    obtain ⟨block, channelUp⟩ := head
    obtain ⟨hstep, hle, hsize, -⟩ := c.PostBlock_order block channelUp
    obtain ⟨hrest, hle2, hsize2⟩ := ih (c.PostBlock block channelUp).1
    rw [runCheckpoints_cons]
    refine ⟨?_, Nat.le_trans hle hle2, hsize2.trans hsize⟩
    simp only
    rw [hstep, hrest]
    have hstart : (c.PostBlock block channelUp).1.lastCheckpointedEpoch + 1
        = c.lastCheckpointedEpoch + 1
          + ((c.PostBlock block channelUp).1.lastCheckpointedEpoch
            - c.lastCheckpointedEpoch) := by omega
    rw [hstart, List.range'_append_1]
    congr 1
    omega

/-- While the channel is down nothing is submitted and the counter stays. -/
theorem runCheckpoints_down (blocks : List (Nat × Bool)) (c : CheckpointManager)
    (h : ∀ x ∈ blocks, x.2 = false) : runCheckpoints c blocks = (c, []) := by
  induction blocks with
  | nil => rfl
  | cons head rest ih =>
    obtain ⟨block, channelUp⟩ := head
    have hdown : channelUp = false := h (block, channelUp) (List.mem_cons_self _ _)
    subst hdown
    rw [runCheckpoints_cons, c.PostBlock_down block,
      ih (fun x hx => h x (List.mem_cons_of_mem _ hx))]
    rfl

/-- While the channel is up, on blocks numbered at least `s`, each block clears at least one
backlogged epoch until all epochs completed by block `s` are checkpointed. -/
theorem runCheckpoints_progress (s : Nat) (blocks : List (Nat × Bool)) :
    ∀ c : CheckpointManager, (∀ x ∈ blocks, x.2 = true ∧ s ≤ x.1) →
      min (c.lastCheckpointedEpoch + blocks.length) (s / c.epochSize)
        ≤ (runCheckpoints c blocks).1.lastCheckpointedEpoch := by
  induction blocks with
  | nil =>
    intro c _
    simp [runCheckpoints]
  | cons head rest ih =>
    intro c h
    obtain ⟨block, channelUp⟩ := head
    obtain ⟨hup, hblock⟩ := h (block, channelUp) (List.mem_cons_self _ _)
    simp only at hup hblock
    subst hup
    have hstep := c.PostBlock_progress block
    have hsize := (c.PostBlock_order block true).2.2.1
    have hrest := ih (c.PostBlock block true).1 (fun x hx => h x (List.mem_cons_of_mem _ hx))
    rw [hsize] at hrest
    have hdiv : s / c.epochSize ≤ block / c.epochSize := Nat.div_le_div_right hblock
    rw [runCheckpoints_cons]
    simp only [List.length_cons]
    omega

/-- Running over two sequences of blocks one after the other. -/
theorem runCheckpoints_append (xs ys : List (Nat × Bool)) :
    ∀ c : CheckpointManager,
      runCheckpoints c (xs ++ ys)
        = ((runCheckpoints (runCheckpoints c xs).1 ys).1,
            (runCheckpoints c xs).2 ++ (runCheckpoints (runCheckpoints c xs).1 ys).2) := by
  induction xs with
  | nil =>
    intro c
    simp [runCheckpoints]
  | cons head rest ih =>
    intro c
    obtain ⟨block, channelUp⟩ := head
    rw [List.cons_append, runCheckpoints_cons, runCheckpoints_cons, ih]
    simp only [List.append_assoc]

/-- C17: checkpoint catch-up after a root-chain outage, on the checkpoint manager modelled from
the specification. If the submission channel is unavailable during the `K` blocks
`s + 1, ..., s + K` and available during the `n` blocks that follow, `n` being at least the
number of epochs backlogged at block `s + K`, then nothing is submitted and the counter stays
during the outage; the epochs submitted over the whole run are the consecutive ones after the
starting counter, in epoch order; and at the end every epoch completed by block `s + K` is
checkpointed. With epoch size 5, the last checkpointed block being 5 before an outage over the
blocks 8 to 21, it is still 5 at block 21, and after the blocks 22 to 24 the epochs 2, 3 and 4
have been submitted in this order and the last checkpointed block is 20, under both policies
for draining the backlog. -/
theorem checkpoint_catch_up (c : CheckpointManager) (s K n : Nat)
    (hbacklog : (s + K) / c.epochSize - c.lastCheckpointedEpoch ≤ n) :
    runCheckpoints c (outageBlocks s K) = (c, []) ∧
      (runCheckpoints c (outageBlocks s K ++ recoveryBlocks (s + K) n)).2
        = List.range' (c.lastCheckpointedEpoch + 1)
            ((runCheckpoints c
                (outageBlocks s K ++ recoveryBlocks (s + K) n)).1.lastCheckpointedEpoch
              - c.lastCheckpointedEpoch) ∧
      (s + K) / c.epochSize
        ≤ (runCheckpoints c
            (outageBlocks s K ++ recoveryBlocks (s + K) n)).1.lastCheckpointedEpoch ∧
      (∀ drain : Bool,
        (CheckpointManager.mk 5 1 drain).lastCheckpointBlock = 5 ∧
          (runCheckpoints (CheckpointManager.mk 5 1 drain)
            (outageBlocks 7 14)).1.lastCheckpointBlock = 5 ∧
          runCheckpoints (CheckpointManager.mk 5 1 drain)
              (outageBlocks 7 14 ++ recoveryBlocks 21 3)
            = (CheckpointManager.mk 5 4 drain, [2, 3, 4]) ∧
          (CheckpointManager.mk 5 4 drain).lastCheckpointBlock = 20) := by
  have hdown : runCheckpoints c (outageBlocks s K) = (c, []) := by
    apply runCheckpoints_down
    intro x hx
    simp only [outageBlocks, List.mem_map] at hx
    obtain ⟨b, -, rfl⟩ := hx
    rfl
  have hup : ∀ x ∈ recoveryBlocks (s + K) n, x.2 = true ∧ s + K ≤ x.1 := by
    intro x hx
    simp only [recoveryBlocks, List.mem_map, List.mem_range'_1] at hx
    obtain ⟨b, ⟨hb, -⟩, rfl⟩ := hx
    exact ⟨rfl, by simp only; omega⟩
  have hprogress := runCheckpoints_progress (s + K) (recoveryBlocks (s + K) n) c hup
  have hlength : (recoveryBlocks (s + K) n).length = n := by
    simp [recoveryBlocks]
  rw [hlength] at hprogress
  refine ⟨hdown, (runCheckpoints_order _ c).1, ?_, ?_⟩
  · rw [runCheckpoints_append, hdown]
    simp only
    omega
  · intro drain
    cases drain <;> decide

/-- Witness for C17: the scenario of the end-to-end test. Epoch size 5 and epoch 1 (block 5)
checkpointed; the channel is down over the blocks 8 to 21 and up over the blocks 22 to 24. -/
theorem checkpoint_catch_up_witness :
    (7 + 14) / (CheckpointManager.mk 5 1 false).epochSize
          - (CheckpointManager.mk 5 1 false).lastCheckpointedEpoch ≤ 3 ∧
      runCheckpoints (CheckpointManager.mk 5 1 false) (outageBlocks 7 14)
        = (CheckpointManager.mk 5 1 false, []) ∧
      (7 + 14) / (CheckpointManager.mk 5 1 false).epochSize
        ≤ (runCheckpoints (CheckpointManager.mk 5 1 false)
            (outageBlocks 7 14 ++ recoveryBlocks (7 + 14) 3)).1.lastCheckpointedEpoch :=
  have h := checkpoint_catch_up (CheckpointManager.mk 5 1 false) 7 14 3 (by decide)
  ⟨by decide, h.1, h.2.2.1⟩

/-! ## Monotonicity of the watermark and the fresh manager -/

/-- The watermark after one call is the watermark before it or the header number. -/
theorem PostBlock_watermark_cases (m : burntFeesManager R L) (env : Env R)
    (req : PostBlockRequest) :
    (m.PostBlock env req).manager.lastWithdrawalBlock = m.lastWithdrawalBlock ∨
      (m.PostBlock env req).manager.lastWithdrawalBlock
        = req.FullBlock.Block.Header.Number := by
  rcases PostBlock_cases m env req with h | ⟨e, effs, h⟩ | ⟨effs, h⟩
  · rw [h]; exact Or.inl rfl
  · rw [h]; exact Or.inl rfl
  · rw [h]; exact Or.inr rfl

/-- From a manager whose watermark is at most every block number to come, on requests with
strictly increasing block numbers: the watermarks, starting value included, are
non-decreasing, and after each call the watermark is at most the number of the block of that
call. -/
theorem watermarks_monotone (calls : List (Env R × PostBlockRequest)) :
    ∀ m : burntFeesManager R L,
      (∀ n ∈ blockNumbers calls, m.lastWithdrawalBlock ≤ n) →
      (blockNumbers calls).Pairwise (· < ·) →
      (m.lastWithdrawalBlock :: watermarks m calls).Pairwise (· ≤ ·) ∧
        List.Forall₂ (fun w n => w ≤ n) (watermarks m calls) (blockNumbers calls) := by
  induction calls with
  | nil =>
    intro m _ _
    simp [watermarks, blockNumbers, postBlocks]
  | cons call rest ih =>
    intro m hbound hinc
    have hhead : m.lastWithdrawalBlock ≤ call.2.FullBlock.Block.Header.Number :=
      hbound _ (by simp [blockNumbers])
    have hinc2 : (∀ n ∈ blockNumbers rest, call.2.FullBlock.Block.Header.Number < n) ∧
        (blockNumbers rest).Pairwise (· < ·) := by
      simpa [blockNumbers] using hinc
    have hstep := PostBlock_watermark_cases m call.1 call.2
    have hle : m.lastWithdrawalBlock
        ≤ (m.PostBlock call.1 call.2).manager.lastWithdrawalBlock := by omega
    have hle2 : (m.PostBlock call.1 call.2).manager.lastWithdrawalBlock
        ≤ call.2.FullBlock.Block.Header.Number := by omega
    obtain ⟨hmono, hbelow⟩ := ih (m.PostBlock call.1 call.2).manager
      (fun n hn => Nat.le_trans hle2 (Nat.le_of_lt (hinc2.1 n hn))) hinc2.2
    have hw : watermarks m (call :: rest)
        = (m.PostBlock call.1 call.2).manager.lastWithdrawalBlock
          :: watermarks (m.PostBlock call.1 call.2).manager rest := by
      simp only [watermarks, postBlocks_cons, List.map_cons]
    have hb : blockNumbers (call :: rest)
        = call.2.FullBlock.Block.Header.Number :: blockNumbers rest := rfl
    rw [hw, hb]
    refine ⟨List.pairwise_cons.mpr ⟨?_, hmono⟩, List.Forall₂.cons hle2 hbelow⟩
    intro x hx
    rcases List.mem_cons.mp hx with rfl | hx
    · exact hle
    · exact Nat.le_trans hle ((List.pairwise_cons.mp hmono).1 x hx)

/-- A relayer call on a request that is not epoch-ending happens only on the block whose number
is the `uint64` sum of watermark and offset. -/
theorem PostBlock_send_number (m : burntFeesManager R L) (env : Env R) (req : PostBlockRequest)
    (hepoch : req.IsEpochEndingBlock = false)
    (hsent : ∃ r txn k, Effect.send r txn k ∈ (m.PostBlock env req).effects) :
    req.FullBlock.Block.Header.Number
      = (m.lastWithdrawalBlock + m.withdrawalOffset) % 2 ^ 64 := by
  obtain ⟨r, txn, k, hmem⟩ := hsent
  obtain ⟨htrigger, -⟩ := PostBlock_send_mem m env req r txn k hmem
  unfold burntFeesManager.isWithdrawalBlock at htrigger
  simpa [hepoch] using htrigger

/-- C21: for every manager, request and answer of encoder and relayer, `lastWithdrawalBlock`
after `PostBlock` is its value before the call or the request's block number. Consequently, on
a manager built by `newBurntFeesManager` and fed requests with strictly increasing block
numbers, the values of `lastWithdrawalBlock` over the calls (starting from 0) are
non-decreasing, and after each call the value is at most the number of the block just
processed. -/
theorem watermark_monotone_on_increasing_blocks (key : Key) (txRelayer : R)
    (withdrawalOffset : Nat) (addr : Address) (logger : L)
    (calls : List (Env R × PostBlockRequest))
    (hincreasing : (blockNumbers calls).Pairwise (· < ·)) :
    (∀ (m : burntFeesManager R L) (env : Env R) (req : PostBlockRequest),
        (m.PostBlock env req).manager.lastWithdrawalBlock = m.lastWithdrawalBlock ∨
          (m.PostBlock env req).manager.lastWithdrawalBlock
            = req.FullBlock.Block.Header.Number) ∧
      (0 :: watermarks (newBurntFeesManager key txRelayer withdrawalOffset addr logger)
        calls).Pairwise (· ≤ ·) ∧
      List.Forall₂ (fun w n => w ≤ n)
        (watermarks (newBurntFeesManager key txRelayer withdrawalOffset addr logger) calls)
        (blockNumbers calls) :=
  ⟨PostBlock_watermark_cases,
    watermarks_monotone calls (newBurntFeesManager key txRelayer withdrawalOffset addr logger)
      (fun _ _ => Nat.zero_le _) hincreasing⟩

/-- Witness for C21: a fresh manager with offset 2 on the blocks 1 to 5 of `epochRun`; the
watermarks are 0, 2, 2, 4, 5. -/
theorem watermark_monotone_on_increasing_blocks_witness :
    (blockNumbers epochRun).Pairwise (· < ·) ∧
      watermarks (newBurntFeesManager nodeKey () 2 burnContract ()) epochRun = [0, 2, 2, 4, 5] ∧
      (0 :: watermarks (newBurntFeesManager nodeKey () 2 burnContract ())
        epochRun).Pairwise (· ≤ ·) ∧
      List.Forall₂ (fun w n => w ≤ n)
        (watermarks (newBurntFeesManager nodeKey () 2 burnContract ()) epochRun)
        (blockNumbers epochRun) :=
  ⟨by decide, by decide,
    (watermark_monotone_on_increasing_blocks nodeKey () 2 burnContract () epochRun
      (by decide)).2⟩

/-- C22: `newBurntFeesManager` returns a manager whose `key`, `txRelayer`, `withdrawalOffset`,
`burntFeesManagerAddr` and `logger` are the arguments and whose `lastWithdrawalBlock` is 0.
Hence, for a `uint64` offset, on a fresh manager a block that is not epoch-ending satisfies
`isWithdrawalBlock` if and only if its number equals `withdrawalOffset`, and `PostBlock` hands
a transaction to the relayer on such a block only if its number equals `withdrawalOffset`. -/
theorem newBurntFeesManager_fresh (key : Key) (txRelayer : R) (withdrawalOffset : Nat)
    (addr : Address) (logger : L) (hoffset : withdrawalOffset < 2 ^ 64) :
    (newBurntFeesManager key txRelayer withdrawalOffset addr logger).key = key ∧
      (newBurntFeesManager key txRelayer withdrawalOffset addr logger).txRelayer = txRelayer ∧
      (newBurntFeesManager key txRelayer withdrawalOffset addr logger).withdrawalOffset
        = withdrawalOffset ∧
      (newBurntFeesManager key txRelayer withdrawalOffset addr logger).burntFeesManagerAddr
        = addr ∧
      (newBurntFeesManager key txRelayer withdrawalOffset addr logger).logger = logger ∧
      (newBurntFeesManager key txRelayer withdrawalOffset addr logger).lastWithdrawalBlock = 0 ∧
      (∀ blockNumber : Nat,
        (newBurntFeesManager key txRelayer withdrawalOffset addr logger).isWithdrawalBlock
            blockNumber false = true ↔ blockNumber = withdrawalOffset) ∧
      (∀ (env : Env R) (req : PostBlockRequest), req.IsEpochEndingBlock = false →
        (∃ r txn k, Effect.send r txn k ∈
          ((newBurntFeesManager key txRelayer withdrawalOffset addr logger).PostBlock
            env req).effects) →
        req.FullBlock.Block.Header.Number = withdrawalOffset) := by
  refine ⟨rfl, rfl, rfl, rfl, rfl, rfl, ?_, ?_⟩
  · intro blockNumber
    unfold burntFeesManager.isWithdrawalBlock newBurntFeesManager
    simp only [Bool.false_or, beq_iff_eq, Nat.zero_add, Nat.mod_eq_of_lt hoffset]
  · intro env req hepoch hsent
    have h := PostBlock_send_number _ env req hepoch hsent
    simp only [newBurntFeesManager, Nat.zero_add] at h
    rw [h]
    exact Nat.mod_eq_of_lt hoffset

/-- Witness for C22: a manager built with the default offset; block 900 triggers, block 1800
does not. -/
theorem newBurntFeesManager_fresh_witness :
    defaultBurntFeesWithdrawalOffset < 2 ^ 64 ∧
      (newBurntFeesManager nodeKey () defaultBurntFeesWithdrawalOffset burnContract
        ()).lastWithdrawalBlock = 0 ∧
      ((newBurntFeesManager nodeKey () defaultBurntFeesWithdrawalOffset burnContract
        ()).isWithdrawalBlock 900 false = true ↔ 900 = defaultBurntFeesWithdrawalOffset) ∧
      ((newBurntFeesManager nodeKey () defaultBurntFeesWithdrawalOffset burnContract
        ()).isWithdrawalBlock 1800 false = true ↔ 1800 = defaultBurntFeesWithdrawalOffset) :=
  have h := newBurntFeesManager_fresh nodeKey () defaultBurntFeesWithdrawalOffset burnContract
    () (by decide)
  ⟨by decide, h.2.2.2.2.2.1, h.2.2.2.2.2.2.1 900, h.2.2.2.2.2.2.1 1800⟩

end polybft
